import Mathlib

/-!
# rime-table-filter: a shallow embedding of `main.go`

The development embeds the two pipeline stages of the tool,
`extractFontChars` (glyph records to character list) and `filterDict`
(the header-aware, buffered line filter), and proves properties of them.

Conventions of the embedding.

* A Go `string` holding UTF-8 text is a Lean `String` (a sequence of Unicode
  scalar values).  A file is the list of its lines, as `bufio.Scanner`
  delivers them.
* An output destination is the list of lines handed to it, in order: one
  element per `fmt.Fprintln` call.  In `filterDict` and `extractFontChars`
  the output files are created and writes succeed; `filterDictFallible` and
  `extractFontCharsFallible` are the same functions on files that may fail,
  and agree with them on files that never do.
* Go `int` counters are `Nat` (they only count up from zero); `cacheSize`
  comes from the command line and may be any integer, so it is an `Int`.
* The Go standard-library functions the program calls (`strings.TrimSpace`,
  `strings.HasPrefix`, `strings.Fields`, `unicode.IsSpace`,
  `strconv.ParseInt`, the conversion `string(rune(_))`) are embedded from
  their documented behaviour, under the same names.
-/

namespace RimeFilter

/-! ## Go standard-library functions used by the program -/

/-- Go `unicode.IsSpace`: the code points with the Unicode White_Space
property. -/
def unicode.IsSpace (c : Char) : Bool :=
  let n := c.toNat
  (9 ≤ n && n ≤ 13) || n == 32 || n == 0x85 || n == 0xA0 || n == 0x1680 ||
  (0x2000 ≤ n && n ≤ 0x200A) || n == 0x2028 || n == 0x2029 || n == 0x202F ||
  n == 0x205F || n == 0x3000

/-- Removal of leading and trailing white space from a character sequence. -/
def trimChars (cs : List Char) : List Char :=
  ((cs.dropWhile unicode.IsSpace).reverse.dropWhile unicode.IsSpace).reverse

/-- Go `strings.TrimSpace`: the string without its leading and trailing
white space, as defined by Unicode. -/
def strings.TrimSpace (s : String) : String :=
  ⟨trimChars s.data⟩

/-- Go `strings.HasPrefix`. -/
def strings.HasPrefix (s pre : String) : Bool :=
  pre.data.isPrefixOf s.data

/-- Worker of `strings.Fields`: `cur` is the field being read, most recent
character first. -/
def fieldsAux : List Char → List Char → List String
  | [], cur => if cur.isEmpty then [] else [String.mk cur.reverse]
  | c :: cs, cur =>
    if unicode.IsSpace c then
      if cur.isEmpty then fieldsAux cs [] else String.mk cur.reverse :: fieldsAux cs []
    else fieldsAux cs (c :: cur)

/-- Go `strings.Fields`: the maximal runs of non-white-space characters of
`s`, in order; empty when `s` holds only white space. -/
def strings.Fields (s : String) : List String :=
  fieldsAux s.data []

/-- Value of one digit character as `strconv.ParseUint` reads it: `0`-`9`, and
letters of either case counting from ten. -/
def digitVal (c : Char) : Option Nat :=
  let n := c.toNat
  if 48 ≤ n ∧ n ≤ 57 then some (n - 48)
  else if 97 ≤ n ∧ n ≤ 122 then some (n - 97 + 10)
  else if 65 ≤ n ∧ n ≤ 90 then some (n - 65 + 10)
  else none

/-- Digit loop of `strconv.ParseUint`: `none` on a character that is not a
digit of the base. -/
def parseDigits (base : Nat) : List Char → Nat → Option Nat
  | [], acc => some acc
  | c :: cs, acc =>
    match digitVal c with
    | none => none
    | some d => if d < base then parseDigits base cs (acc * base + d) else none

/-- Go `strconv.ParseUint` on the characters of the string, for an explicit
base (2 to 36): a syntax error on the empty string or a bad digit and a range
error on a value of more than `bitSize` bits are both `none`. -/
def ParseUintChars (cs : List Char) (base bitSize : Nat) : Option Nat :=
  match cs with
  | [] => none
  | _ :: _ =>
    match parseDigits base cs 0 with
    | none => none
    | some n => if n < 2 ^ bitSize then some n else none

/-- Go `strconv.ParseInt` for an explicit base: an optional sign, then
`ParseUint`, then the range check of a signed integer of `bitSize` bits.
Any error is `none`. -/
def strconv.ParseInt (s : String) (base bitSize : Nat) : Option Int :=
  match s.data with
  | [] => none
  | c :: cs =>
    let neg : Bool := c = '-'
    let digits := if c = '+' ∨ c = '-' then cs else c :: cs
    match ParseUintChars digits base bitSize with
    | none => none
    | some un =>
      let cutoff := 2 ^ (bitSize - 1)
      if neg = false ∧ cutoff ≤ un then none
      else if neg = true ∧ cutoff < un then none
      else some (if neg then -(un : Int) else (un : Int))

/-- Go conversion `string(rune(code))` for `code` in the 32-bit signed range:
the one-character string of the code point, and U+FFFD for a value that is
not a Unicode scalar value (negative, a surrogate, or above U+10FFFF). -/
def runeToString (code : Int) : String :=
  if 0 ≤ code ∧ Nat.isValidChar code.toNat then String.singleton (Char.ofNat code.toNat)
  else String.singleton (Char.ofNat 0xFFFD)

/-! ## `extractFontChars` (main.go, lines 239-316) -/

/-- The errors `extractFontChars` returns from the scan of `output.ttx` on. -/
inductive ExtractError where
  /-- No line matched the glyph-map pattern (line 252). -/
  | noGlyphMappings
  /-- No character was extracted (line 295). -/
  | noCharsExtracted
  /-- The call `os.Create` for the character file failed (line 302). -/
  | createFailed
  /-- A call `writer.WriteString` returned an error (line 309). -/
  | writeFailed
deriving DecidableEq, Repr

/-- Loop variables of `extractFontChars`. -/
structure ExtractState where
  chars : List String
  cache : List String
  processed : Nat
deriving DecidableEq, Repr

/-- What a successful `extractFontChars` yields: the returned slice and the
strings handed to `writer.WriteString` for `chinese_characters.txt`. -/
structure Extracted where
  chars : List String
  charFile : List String
deriving DecidableEq, Repr

deriving instance DecidableEq for Except

/-- One iteration of the processing loop (lines 263-285).  A scanned line is
given by the result of `re.FindStringSubmatch`: `none` when the line does not
match the pattern, `some hex` with the captured hexadecimal digits when it
does. -/
def extractStep (cacheSize : Int) (st : ExtractState) (m : Option String) : ExtractState :=
  match m with
  | none => st
  | some hex =>
    match strconv.ParseInt hex 16 32 with
    | none => st
    | some code =>
      let char := runeToString code
      let cache := st.cache ++ [char]
      if cacheSize ≤ (cache.length : Int) then
        { chars := st.chars ++ cache, cache := [], processed := st.processed + 1 }
      else
        { chars := st.chars, cache := cache, processed := st.processed + 1 }

/-- The body of `extractFontChars` from the scan of `output.ttx` on: the
counting pass, the processing pass staged through `cache`, the final append of
the cache, the empty-result check and the write of one line per character.
Here the character file is created and every write to it succeeds, so the
error returns of lines 302 and 309 are not taken; `extractFontCharsFallible`
is the same function with a character file that may fail, and agrees with
this one on a file that does not. -/
def extractFontChars (scanned : List (Option String)) (cacheSize : Int) :
    Except ExtractError Extracted :=
  let totalLines := (scanned.filter Option.isSome).length
  if totalLines = 0 then .error .noGlyphMappings
  else
    let st := scanned.foldl (extractStep cacheSize) ⟨[], [], 0⟩
    let chars := if 0 < st.cache.length then st.chars ++ st.cache else st.chars
    if chars.length = 0 then .error .noCharsExtracted
    else .ok ⟨chars, chars.foldl (fun w char => w ++ [char ++ "\n"]) []⟩

/-! ## `filterDict` (main.go, lines 319-495) and `writeLines` -/

/-- The membership map of lines 328-331: a Go `map[string]bool`, whose lookup
of an absent key is `false`. -/
def buildValidMap (validChars : List String) : String → Bool :=
  validChars.foldl (fun m char => fun k => if k = char then true else m k) (fun _ => false)

/-- Go `writeLines` (lines 498-505): every line is printed to the writer, in
order. -/
def writeLines (writer : List String) (lines : List String) : List String :=
  lines.foldl (fun w line => w ++ [line]) writer

/-- Local variables of `filterDict` together with the two output files. -/
structure FilterState where
  /-- Lines written to `outputFileHandle` so far. -/
  outputFileHandle : List String
  /-- Lines written to `missing_chars.txt` so far. -/
  missingFile : List String
  outputCache : List String
  missingCache : List String
  outputCacheCount : Nat
  missingCacheCount : Nat
  processedLines : Nat
  totalDictLines : Nat
  validLines : Nat
  missingLines : Nat
  inHeader : Bool
  headerFound : Bool
  headerHandled : Bool
deriving DecidableEq, Repr

/-- State of `filterDict` before the first line is read (lines 365-380). -/
def FilterState.init : FilterState :=
  { outputFileHandle := [], missingFile := [], outputCache := [], missingCache := [],
    outputCacheCount := 0, missingCacheCount := 0, processedLines := 0,
    totalDictLines := 0, validLines := 0, missingLines := 0,
    inHeader := false, headerFound := false, headerHandled := false }

/-- The statements `outputCache = append(outputCache, line); outputCacheCount++`. -/
def pushOutput (s : FilterState) (line : String) : FilterState :=
  { s with outputCache := s.outputCache ++ [line], outputCacheCount := s.outputCacheCount + 1 }

/-- The statements `missingCache = append(missingCache, char); missingCacheCount++`. -/
def pushMissing (s : FilterState) (char : String) : FilterState :=
  { s with missingCache := s.missingCache ++ [char], missingCacheCount := s.missingCacheCount + 1 }

/-- The threshold flush of the output cache (`if outputCacheCount >= cacheSize`). -/
def flushOutput (cacheSize : Int) (s : FilterState) : FilterState :=
  if cacheSize ≤ (s.outputCacheCount : Int) then
    { s with outputFileHandle := writeLines s.outputFileHandle s.outputCache,
             outputCache := [], outputCacheCount := 0 }
  else s

/-- The threshold flush of the missing cache (`if missingCacheCount >= cacheSize`). -/
def flushMissing (cacheSize : Int) (s : FilterState) : FilterState :=
  if cacheSize ≤ (s.missingCacheCount : Int) then
    { s with missingFile := writeLines s.missingFile s.missingCache,
             missingCache := [], missingCacheCount := 0 }
  else s

/-- Lines 412-474 of the loop body: what happens to a line that the header
block of lines 389-410 did not consume. -/
def classifyLine (validMap : String → Bool) (cacheSize : Int) (s0 : FilterState)
    (line trimmed : String) : FilterState :=
  let s :=
    if s0.headerFound = true ∧ s0.inHeader = false ∧ s0.headerHandled = false then
      { s0 with outputFileHandle := s0.outputFileHandle ++ ["..."], headerHandled := true }
    else s0
  if trimmed = "" ∨ strings.HasPrefix trimmed "#" = true then
    flushOutput cacheSize (pushOutput s line)
  else if trimmed = "---" ∨ trimmed = "..." then
    flushOutput cacheSize (pushOutput s line)
  else
    match strings.Fields line with
    | [] => s
    | char :: _ =>
      let s1 := { s with totalDictLines := s.totalDictLines + 1 }
      let s2 :=
        if validMap char = true then
          { pushOutput s1 line with validLines := s1.validLines + 1 }
        else
          { pushMissing s1 char with missingLines := s1.missingLines + 1 }
      flushMissing cacheSize (flushOutput cacheSize s2)

/-- One iteration of the scanning loop of `filterDict` (lines 382-475). -/
def processLine (validMap : String → Bool) (cacheSize : Int) (s0 : FilterState)
    (line : String) : FilterState :=
  let s := { s0 with processedLines := s0.processedLines + 1 }
  let trimmed := strings.TrimSpace line
  if s.headerHandled = false then
    if s.inHeader = false then
      if s.processedLines = 1 ∧ trimmed = "---" then
        { s with inHeader := true, headerFound := true,
                 outputFileHandle := s.outputFileHandle ++ [line] }
      else classifyLine validMap cacheSize s line trimmed
    else
      let s1 := { s with outputFileHandle := s.outputFileHandle ++ [line] }
      if trimmed = "..." then { s1 with inHeader := false, headerHandled := true } else s1
  else classifyLine validMap cacheSize s line trimmed

/-- The scanning loop of `filterDict` over all lines, from the initial state. -/
def runLoop (validMap : String → Bool) (cacheSize : Int) (lines : List String) : FilterState :=
  lines.foldl (processLine validMap cacheSize) FilterState.init

/-- The end-of-stream flush of lines 478-483. -/
def finalFlush (s : FilterState) : FilterState :=
  let s1 :=
    if 0 < s.outputCache.length then
      { s with outputFileHandle := writeLines s.outputFileHandle s.outputCache }
    else s
  if 0 < s1.missingCache.length then
    { s1 with missingFile := writeLines s1.missingFile s1.missingCache }
  else s1

/-- Go `filterDict` on the lines of the dictionary file: the state when the
function returns.  Its `outputFileHandle` and `missingFile` fields are the
contents of the filtered file and of `missing_chars.txt`, and
`totalDictLines`, `validLines` and `missingLines` are the three counters it
logs. -/
def filterDict (lines : List String) (validChars : List String) (cacheSize : Int) : FilterState :=
  finalFlush (runLoop (buildValidMap validChars) cacheSize lines)

/-! ## `filterDict` with output files whose writes may fail -/

/-- An output file as an `io.Writer` whose writes may fail: `written` holds
the lines written so far and `remaining` is the number of writes that still
succeed (`none`: every write succeeds). -/
structure Writer where
  written : List String
  remaining : Option Nat
deriving DecidableEq, Repr

/-- Go `fmt.Fprintln(w, line)`: the writer after the call and whether the call
returned an error. -/
def Fprintln (w : Writer) (line : String) : Writer × Bool :=
  match w.remaining with
  | none => ({ w with written := w.written ++ [line] }, false)
  | some 0 => (w, true)
  | some (n + 1) => ({ written := w.written ++ [line], remaining := some n }, false)

/-- Go `writeLines` (lines 498-505) on a writer that may fail: the loop
returns the error of the first failing `Fprintln`. -/
def writeLinesFallible : Writer → List String → Writer × Bool
  | w, [] => (w, false)
  | w, line :: lines =>
    if (Fprintln w line).2 = true then ((Fprintln w line).1, true)
    else writeLinesFallible (Fprintln w line).1 lines

/-- Local variables of `filterDict` with the two output files as writers that
may fail. -/
structure WriterState where
  outputFileHandle : Writer
  missingFile : Writer
  outputCache : List String
  missingCache : List String
  outputCacheCount : Nat
  missingCacheCount : Nat
  processedLines : Nat
  totalDictLines : Nat
  validLines : Nat
  missingLines : Nat
  inHeader : Bool
  headerFound : Bool
  headerHandled : Bool
deriving DecidableEq, Repr

/-- State of `filterDict` before the first line is read, on the two files
just created. -/
def WriterState.init (outputFileHandle missingFile : Writer) : WriterState :=
  { outputFileHandle := outputFileHandle, missingFile := missingFile,
    outputCache := [], missingCache := [],
    outputCacheCount := 0, missingCacheCount := 0, processedLines := 0,
    totalDictLines := 0, validLines := 0, missingLines := 0,
    inHeader := false, headerFound := false, headerHandled := false }

/-- The statements `outputCache = append(outputCache, line); outputCacheCount++`. -/
def pushOutputFallible (s : WriterState) (line : String) : WriterState :=
  { s with outputCache := s.outputCache ++ [line], outputCacheCount := s.outputCacheCount + 1 }

/-- The statements `missingCache = append(missingCache, char); missingCacheCount++`. -/
def pushMissingFallible (s : WriterState) (char : String) : WriterState :=
  { s with missingCache := s.missingCache ++ [char], missingCacheCount := s.missingCacheCount + 1 }

/-- The threshold flush of the output cache: the call
`writeLines(outputFileHandle, outputCache)` is a statement of its own, so the
error it returns is dropped. -/
def flushOutputFallible (cacheSize : Int) (s : WriterState) : WriterState :=
  if cacheSize ≤ (s.outputCacheCount : Int) then
    { s with outputFileHandle := (writeLinesFallible s.outputFileHandle s.outputCache).1,
             outputCache := [], outputCacheCount := 0 }
  else s

/-- The threshold flush of the missing cache; the error of `writeLines` is
dropped here too. -/
def flushMissingFallible (cacheSize : Int) (s : WriterState) : WriterState :=
  if cacheSize ≤ (s.missingCacheCount : Int) then
    { s with missingFile := (writeLinesFallible s.missingFile s.missingCache).1,
             missingCache := [], missingCacheCount := 0 }
  else s

/-- Lines 412-474 of the loop body on writers that may fail.  `Except.error`
is the statement `return err`, with the state at that moment. -/
def classifyLineFallible (validMap : String → Bool) (cacheSize : Int) (s0 : WriterState)
    (line trimmed : String) : Except WriterState WriterState :=
  let synth : Except WriterState WriterState :=
    if s0.headerFound = true ∧ s0.inHeader = false ∧ s0.headerHandled = false then
      if (Fprintln s0.outputFileHandle "...").2 = true then
        .error { s0 with outputFileHandle := (Fprintln s0.outputFileHandle "...").1 }
      else
        .ok { s0 with outputFileHandle := (Fprintln s0.outputFileHandle "...").1,
                      headerHandled := true }
    else .ok s0
  match synth with
  | .error e => .error e
  | .ok s =>
    if trimmed = "" ∨ strings.HasPrefix trimmed "#" = true then
      .ok (flushOutputFallible cacheSize (pushOutputFallible s line))
    else if trimmed = "---" ∨ trimmed = "..." then
      .ok (flushOutputFallible cacheSize (pushOutputFallible s line))
    else
      match strings.Fields line with
      | [] => .ok s
      | char :: _ =>
        let s1 := { s with totalDictLines := s.totalDictLines + 1 }
        let s2 :=
          if validMap char = true then
            { pushOutputFallible s1 line with validLines := s1.validLines + 1 }
          else
            { pushMissingFallible s1 char with missingLines := s1.missingLines + 1 }
        .ok (flushMissingFallible cacheSize (flushOutputFallible cacheSize s2))

/-- One iteration of the scanning loop (lines 382-475) on writers that may
fail: the direct writes of the header block return their error. -/
def processLineFallible (validMap : String → Bool) (cacheSize : Int) (s0 : WriterState)
    (line : String) : Except WriterState WriterState :=
  let s := { s0 with processedLines := s0.processedLines + 1 }
  let trimmed := strings.TrimSpace line
  if s.headerHandled = false then
    if s.inHeader = false then
      if s.processedLines = 1 ∧ trimmed = "---" then
        if (Fprintln s.outputFileHandle line).2 = true then
          .error { s with inHeader := true, headerFound := true,
                          outputFileHandle := (Fprintln s.outputFileHandle line).1 }
        else
          .ok { s with inHeader := true, headerFound := true,
                       outputFileHandle := (Fprintln s.outputFileHandle line).1 }
      else classifyLineFallible validMap cacheSize s line trimmed
    else
      if (Fprintln s.outputFileHandle line).2 = true then
        .error { s with outputFileHandle := (Fprintln s.outputFileHandle line).1 }
      else
        let s1 := { s with outputFileHandle := (Fprintln s.outputFileHandle line).1 }
        if trimmed = "..." then .ok { s1 with inHeader := false, headerHandled := true }
        else .ok s1
  else classifyLineFallible validMap cacheSize s line trimmed

/-- The scanning loop on writers that may fail; it stops at the first
`return err`. -/
def runLoopFallible (validMap : String → Bool) (cacheSize : Int) :
    WriterState → List String → Except WriterState WriterState
  | s, [] => .ok s
  | s, line :: lines =>
    match processLineFallible validMap cacheSize s line with
    | .error e => .error e
    | .ok s1 => runLoopFallible validMap cacheSize s1 lines

/-- The end-of-stream flush of lines 478-483; the errors of the two
`writeLines` calls are dropped. -/
def finalFlushFallible (s : WriterState) : WriterState :=
  let s1 :=
    if 0 < s.outputCache.length then
      { s with outputFileHandle := (writeLinesFallible s.outputFileHandle s.outputCache).1 }
    else s
  if 0 < s1.missingCache.length then
    { s1 with missingFile := (writeLinesFallible s1.missingFile s1.missingCache).1 }
  else s1

/-- Go `filterDict` on two output files that may fail: `Except.ok` is
`return nil` (line 494) and `Except.error` is `return err`, each with the
state of the variables and files at the return. -/
def filterDictFallible (lines : List String) (validChars : List String) (cacheSize : Int)
    (outputFileHandle missingFile : Writer) : Except WriterState WriterState :=
  match runLoopFallible (buildValidMap validChars) cacheSize
      (WriterState.init outputFileHandle missingFile) lines with
  | .error e => .error e
  | .ok s => .ok (finalFlushFallible s)

/-- Whether a run of `filterDictFallible` ended with `return nil`. -/
def returnsNil (r : Except WriterState WriterState) : Bool :=
  match r with
  | .ok _ => true
  | .error _ => false

/-- The lines in the filtered file after a run of `filterDictFallible`. -/
def outputWritten (r : Except WriterState WriterState) : List String :=
  match r with
  | .ok s => s.outputFileHandle.written
  | .error s => s.outputFileHandle.written

/-- The lines in the missing report after a run of `filterDictFallible`. -/
def missingWritten (r : Except WriterState WriterState) : List String :=
  match r with
  | .ok s => s.missingFile.written
  | .error s => s.missingFile.written

/-! ## `extractFontChars` with a character file that may fail -/

/-- Go `writer.WriteString(s)` on the writer of the character file: the
writer after the call and whether the call returned an error. -/
def WriteString (w : Writer) (s : String) : Writer × Bool :=
  match w.remaining with
  | none => ({ w with written := w.written ++ [s] }, false)
  | some 0 => (w, true)
  | some (n + 1) => ({ written := w.written ++ [s], remaining := some n }, false)

/-- The write loop of lines 307-311: one `WriteString(char + "\n")` per
character, stopping at the first call that returns an error. -/
def writeChars : Writer → List String → Writer × Bool
  | w, [] => (w, false)
  | w, char :: chars =>
    if (WriteString w (char ++ "\n")).2 = true then ((WriteString w (char ++ "\n")).1, true)
    else writeChars (WriteString w (char ++ "\n")).1 chars

/-- The body of `extractFontChars` from the scan of `output.ttx` on, with all
its error returns.  `charFile` is the result of `os.Create`: `none` when the
call fails, `some w` with the writer of the new file when it succeeds.  The
result of `writer.Flush()` (line 312) is discarded by the source and has no
part in what is returned. -/
def extractFontCharsFallible (scanned : List (Option String)) (cacheSize : Int)
    (charFile : Option Writer) : Except ExtractError Extracted :=
  let totalLines := (scanned.filter Option.isSome).length
  if totalLines = 0 then .error .noGlyphMappings
  else
    let st := scanned.foldl (extractStep cacheSize) ⟨[], [], 0⟩
    let chars := if 0 < st.cache.length then st.chars ++ st.cache else st.chars
    if chars.length = 0 then .error .noCharsExtracted
    else
      match charFile with
      | none => .error .createFailed
      | some w =>
        if (writeChars w chars).2 = true then .error .writeFailed
        else .ok ⟨chars, (writeChars w chars).1.written⟩

/-! ## The reference without buffering -/

/-- Variables of the unbuffered reference: those of `filterDict` without the
two caches and their counters.  The reference is the filter as the
specification describes it when every sink writes at once. -/
structure DirectState where
  outputFileHandle : List String
  missingFile : List String
  processedLines : Nat
  totalDictLines : Nat
  validLines : Nat
  missingLines : Nat
  inHeader : Bool
  headerFound : Bool
  headerHandled : Bool
deriving DecidableEq, Repr

/-- Initial state of the unbuffered reference. -/
def DirectState.init : DirectState :=
  { outputFileHandle := [], missingFile := [], processedLines := 0, totalDictLines := 0,
    validLines := 0, missingLines := 0,
    inHeader := false, headerFound := false, headerHandled := false }

/-- Lines 412-474 with no buffering: where `classifyLine` appends a line to a
cache, the line is written to the file at once. -/
def classifyLineUnbuffered (validMap : String → Bool) (s0 : DirectState)
    (line trimmed : String) : DirectState :=
  let s :=
    if s0.headerFound = true ∧ s0.inHeader = false ∧ s0.headerHandled = false then
      { s0 with outputFileHandle := s0.outputFileHandle ++ ["..."], headerHandled := true }
    else s0
  if trimmed = "" ∨ strings.HasPrefix trimmed "#" = true then
    { s with outputFileHandle := s.outputFileHandle ++ [line] }
  else if trimmed = "---" ∨ trimmed = "..." then
    { s with outputFileHandle := s.outputFileHandle ++ [line] }
  else
    match strings.Fields line with
    | [] => s
    | char :: _ =>
      if validMap char = true then
        { s with totalDictLines := s.totalDictLines + 1, outputFileHandle := s.outputFileHandle ++ [line],
                 validLines := s.validLines + 1 }
      else
        { s with totalDictLines := s.totalDictLines + 1, missingFile := s.missingFile ++ [char],
                 missingLines := s.missingLines + 1 }

/-- The loop body with no buffering. -/
def processLineUnbuffered (validMap : String → Bool) (s0 : DirectState)
    (line : String) : DirectState :=
  let s := { s0 with processedLines := s0.processedLines + 1 }
  let trimmed := strings.TrimSpace line
  if s.headerHandled = false then
    if s.inHeader = false then
      if s.processedLines = 1 ∧ trimmed = "---" then
        { s with inHeader := true, headerFound := true,
                 outputFileHandle := s.outputFileHandle ++ [line] }
      else classifyLineUnbuffered validMap s line trimmed
    else
      let s1 := { s with outputFileHandle := s.outputFileHandle ++ [line] }
      if trimmed = "..." then { s1 with inHeader := false, headerHandled := true } else s1
  else classifyLineUnbuffered validMap s line trimmed

/-- The filter with no buffering at all: every line is written to its
destination when it is routed there. -/
def filterDictUnbuffered (lines : List String) (validChars : List String) : DirectState :=
  lines.foldl (processLineUnbuffered (buildValidMap validChars)) DirectState.init

/-- What has been handed to each destination so far, written or still
pending in a cache. -/
def FilterState.unbuffered (s : FilterState) : DirectState :=
  { outputFileHandle := s.outputFileHandle ++ s.outputCache,
    missingFile := s.missingFile ++ s.missingCache,
    processedLines := s.processedLines, totalDictLines := s.totalDictLines,
    validLines := s.validLines, missingLines := s.missingLines,
    inHeader := s.inHeader, headerFound := s.headerFound, headerHandled := s.headerHandled }

/-! ## Vocabulary of the specification -/

/-- A structural line (specification, 4.3 rules 3 and 4): its trimmed content
is empty, starts with `#`, or is exactly `---` or `...`. -/
def isStructural (line : String) : Bool :=
  decide (strings.TrimSpace line = "") || strings.HasPrefix (strings.TrimSpace line) "#" ||
    decide (strings.TrimSpace line = "---") || decide (strings.TrimSpace line = "...")

/-- The key of a line: its first white-space-delimited field. -/
def firstField (line : String) : String :=
  (strings.Fields line).headD ""

/-- A line outside the front matter stays in the filtered dictionary: it is
structural, or it is a content entry whose key is in the character set. -/
def keeps (validChars : List String) (line : String) : Bool :=
  isStructural line || decide (firstField line ∈ validChars)

/-- A line outside the front matter is reported as missing: it is a content
entry whose key is not in the character set. -/
def reports (validChars : List String) (line : String) : Bool :=
  !isStructural line && !decide (firstField line ∈ validChars)

/-- Number of lines up to and including the first line that trims to `...`;
the number of all lines when there is none. -/
def closeIndex : List String → Nat
  | [] => 0
  | l :: ls => if strings.TrimSpace l = "..." then 1 else closeIndex ls + 1

/-- Number of lines of the front-matter block: the block exists when line 1
trims to `---` and runs through the first later line that trims to `...`. -/
def frontMatterLen : List String → Nat
  | [] => 0
  | first :: rest => if strings.TrimSpace first = "---" then closeIndex rest + 1 else 0

/-- The line that follows the lines `pre` of the input lies in the
front-matter block. -/
def inFrontMatter (pre : List String) (line : String) : Bool :=
  match pre with
  | [] => decide (strings.TrimSpace line = "---")
  | first :: body =>
    decide (strings.TrimSpace first = "---") && body.all (fun l => decide (strings.TrimSpace l ≠ "..."))

/-- The content entries of an input: the lines after the front-matter block
that are not structural. -/
def contentEntries (input : List String) : List String :=
  (input.drop (frontMatterLen input)).filter (fun l => !isStructural l)

/-- The number a string of hexadecimal digits denotes; `none` for the empty
string and for a string with another character. -/
def hexValue (hex : String) : Option Nat :=
  match hex.data with
  | [] => none
  | c :: cs => parseDigits 16 (c :: cs) 0

/-- The characters of the records whose hexadecimal code parses, in order of
appearance, duplicates kept (specification, 4.1). -/
def decodeRecords (scanned : List (Option String)) : List String :=
  scanned.filterMap (fun m => m.bind (fun hex => (strconv.ParseInt hex 16 32).map runeToString))

/-! ## Invariants and auxiliary notions of the proofs -/

/-- Invariant of the scanning loop that keeps direct writes and buffered
writes in order: the synthesized close token is never due, and the output
cache is empty as long as lines are written directly. -/
def FilterState.Inv (s : FilterState) : Prop :=
  (s.headerFound = true → s.inHeader = true ∨ s.headerHandled = true) ∧
  (s.inHeader = true → s.headerHandled = false ∧ s.outputCache = []) ∧
  (s.processedLines = 0 → s.outputCache = [])

/-- The unbuffered reference is past the front matter (or found none): every
further line is classified by the body rules. -/
def DirectState.bodyMode (u : DirectState) : Prop :=
  u.inHeader = false ∧ (u.headerHandled = true ∨ (u.headerFound = false ∧ u.processedLines ≠ 0))

/-- Effect of one body line on the unbuffered state. -/
def DirectState.route (vc : List String) (u : DirectState) (line : String) : DirectState :=
  { u with
    processedLines := u.processedLines + 1,
    outputFileHandle := u.outputFileHandle ++ (if keeps vc line = true then [line] else []),
    missingFile := u.missingFile ++ (if reports vc line = true then [firstField line] else []),
    totalDictLines := u.totalDictLines + (if isStructural line = true then 0 else 1),
    validLines := u.validLines + (if isStructural line = false ∧ firstField line ∈ vc then 1 else 0),
    missingLines := u.missingLines + (if reports vc line = true then 1 else 0) }

/-- Bound on the two caches of `filterDict`: the counters are the lengths of
the caches and both stay below `cacheSize`. -/
def FilterState.Bounded (cacheSize : Int) (s : FilterState) : Prop :=
  s.outputCacheCount = s.outputCache.length ∧ s.missingCacheCount = s.missingCache.length ∧
  (s.outputCache.length : Int) < cacheSize ∧ (s.missingCache.length : Int) < cacheSize

/-- The state of the infallible embedding that a state on writers stands
for. -/
def WriterState.toPure (s : WriterState) : FilterState :=
  { outputFileHandle := s.outputFileHandle.written, missingFile := s.missingFile.written,
    outputCache := s.outputCache, missingCache := s.missingCache,
    outputCacheCount := s.outputCacheCount, missingCacheCount := s.missingCacheCount,
    processedLines := s.processedLines, totalDictLines := s.totalDictLines,
    validLines := s.validLines, missingLines := s.missingLines,
    inHeader := s.inHeader, headerFound := s.headerFound, headerHandled := s.headerHandled }

/-- Both output files accept every write. -/
def WriterState.Unbounded (s : WriterState) : Prop :=
  s.outputFileHandle.remaining = none ∧ s.missingFile.remaining = none

/-! ## Basic facts -/

theorem writeLines_eq (w lines : List String) : writeLines w lines = w ++ lines := by
  unfold writeLines
  induction lines generalizing w with
  | nil => simp
  | cons l ls ih => simp [List.foldl_cons, ih]

theorem buildValidMap_aux (vc : List String) (m : String → Bool) (k : String) :
    vc.foldl (fun m char => fun k => if k = char then true else m k) m k = true ↔
      k ∈ vc ∨ m k = true := by
  induction vc generalizing m with
  | nil => simp
  | cons c cs ih =>
    simp only [List.foldl_cons, ih, List.mem_cons]
    by_cases h : k = c <;> simp [h]

theorem buildValidMap_iff (vc : List String) (k : String) :
    buildValidMap vc k = true ↔ k ∈ vc := by
  unfold buildValidMap
  rw [buildValidMap_aux]
  simp

theorem unbuffered_flushOutput (cs : Int) (s : FilterState) :
    (flushOutput cs s).unbuffered = s.unbuffered := by
  unfold flushOutput
  split <;> simp [FilterState.unbuffered, writeLines_eq]

theorem unbuffered_flushMissing (cs : Int) (s : FilterState) :
    (flushMissing cs s).unbuffered = s.unbuffered := by
  unfold flushMissing
  split <;> simp [FilterState.unbuffered, writeLines_eq]

theorem unbuffered_pushOutput (s : FilterState) (line : String) :
    (pushOutput s line).unbuffered =
      { s.unbuffered with outputFileHandle := s.unbuffered.outputFileHandle ++ [line] } := by
  simp [FilterState.unbuffered, pushOutput]

theorem unbuffered_pushMissing (s : FilterState) (char : String) :
    (pushMissing s char).unbuffered =
      { s.unbuffered with missingFile := s.unbuffered.missingFile ++ [char] } := by
  simp [FilterState.unbuffered, pushMissing]

theorem classifyLine_unbuffered (vm : String → Bool) (cs : Int) (s : FilterState)
    (line t : String)
    (hsyn : ¬(s.headerFound = true ∧ s.inHeader = false ∧ s.headerHandled = false)) :
    (classifyLine vm cs s line t).unbuffered = classifyLineUnbuffered vm s.unbuffered line t := by
  have hsyn2 : ¬(s.unbuffered.headerFound = true ∧ s.unbuffered.inHeader = false ∧
      s.unbuffered.headerHandled = false) := hsyn
  unfold classifyLine classifyLineUnbuffered
  simp only [if_neg hsyn, if_neg hsyn2]
  split
  · rw [unbuffered_flushOutput, unbuffered_pushOutput]
  · split
    · rw [unbuffered_flushOutput, unbuffered_pushOutput]
    · split
      · rfl
      · split
        · rw [unbuffered_flushMissing, unbuffered_flushOutput]
          simp [FilterState.unbuffered, pushOutput]
        · rw [unbuffered_flushMissing, unbuffered_flushOutput]
          simp [FilterState.unbuffered, pushMissing]

theorem dropWhile_eq_nil_iff_all (p : Char → Bool) (cs : List Char) :
    cs.dropWhile p = [] ↔ ∀ c ∈ cs, p c = true := by
  induction cs with
  | nil => simp
  | cons c cs ih =>
    by_cases h : p c = true
    · simp [List.dropWhile_cons, h, ih]
    · simp [List.dropWhile_cons, h]

theorem trimChars_of_all_space (cs : List Char)
    (h : ∀ c ∈ cs, unicode.IsSpace c = true) : trimChars cs = [] := by
  unfold trimChars
  rw [List.reverse_eq_nil_iff, dropWhile_eq_nil_iff_all]
  intro c hc
  rw [List.mem_reverse] at hc
  exact h c ((List.dropWhile_sublist _).subset hc)

theorem fieldsAux_eq_nil_iff (cs cur : List Char) :
    fieldsAux cs cur = [] ↔ cur = [] ∧ ∀ c ∈ cs, unicode.IsSpace c = true := by
  induction cs generalizing cur with
  | nil => cases cur <;> simp [fieldsAux]
  | cons c cs ih =>
    by_cases h : unicode.IsSpace c = true
    · cases cur <;> simp [fieldsAux, h, ih]
    · simp [fieldsAux, h, ih]

theorem fields_ne_nil (line : String) (h : strings.TrimSpace line ≠ "") :
    strings.Fields line ≠ [] := by
  intro hf
  apply h
  unfold strings.Fields at hf
  rw [fieldsAux_eq_nil_iff] at hf
  unfold strings.TrimSpace
  rw [trimChars_of_all_space _ hf.2]

theorem classifyLineUnbuffered_eq (vc : List String) (u : DirectState) (line : String)
    (hsyn : ¬(u.headerFound = true ∧ u.inHeader = false ∧ u.headerHandled = false)) :
    classifyLineUnbuffered (buildValidMap vc) u line (strings.TrimSpace line) =
      { u with
        outputFileHandle := u.outputFileHandle ++ (if keeps vc line = true then [line] else []),
        missingFile := u.missingFile ++ (if reports vc line = true then [firstField line] else []),
        totalDictLines := u.totalDictLines + (if isStructural line = true then 0 else 1),
        validLines := u.validLines + (if isStructural line = false ∧ firstField line ∈ vc then 1 else 0),
        missingLines := u.missingLines + (if reports vc line = true then 1 else 0) } := by
  unfold classifyLineUnbuffered
  simp only [if_neg hsyn]
  by_cases h1 : strings.TrimSpace line = "" ∨ strings.HasPrefix (strings.TrimSpace line) "#" = true
  · have hs : isStructural line = true := by
      unfold isStructural
      rcases h1 with h1 | h1 <;> simp [h1]
    simp [h1, hs, keeps, reports]
  · by_cases h2 : strings.TrimSpace line = "---" ∨ strings.TrimSpace line = "..."
    · have hs : isStructural line = true := by
        unfold isStructural
        rcases h2 with h2 | h2 <;> simp [h2]
      simp [h1, h2, hs, keeps, reports]
    · have hs : isStructural line = false := by
        unfold isStructural
        push_neg at h1 h2
        simp [h1.1, h1.2, h2.1, h2.2]
      have hne : strings.TrimSpace line ≠ "" := fun h => h1 (Or.inl h)
      obtain ⟨k, rest, hk⟩ := List.exists_cons_of_ne_nil (fields_ne_nil line hne)
      have hff : firstField line = k := by simp [firstField, hk]
      simp only [if_neg h1, if_neg h2, hk, buildValidMap_iff]
      by_cases hv : k ∈ vc
      · simp [hv, hs, keeps, reports, hff]
      · simp [hv, hs, keeps, reports, hff]

theorem processLineUnbuffered_route (vc : List String) (u : DirectState) (line : String)
    (h1 : u.inHeader = false)
    (h2 : u.headerHandled = true ∨
      (u.headerFound = false ∧ (u.processedLines ≠ 0 ∨ strings.TrimSpace line ≠ "---"))) :
    processLineUnbuffered (buildValidMap vc) u line = u.route vc line := by
  obtain ⟨out, mis, pl, t, v, m, ih, hf, hh⟩ := u
  simp only at h1 h2
  subst h1
  unfold processLineUnbuffered DirectState.route
  rcases h2 with h2 | ⟨h2, h3⟩
  · subst h2
    simp only [Bool.true_eq_false, if_false]
    rw [classifyLineUnbuffered_eq _ _ _ (by simp)]
  · subst h2
    have h4 : ¬(pl + 1 = 1 ∧ strings.TrimSpace line = "---") := by
      intro h
      rcases h3 with h3 | h3
      · omega
      · exact h3 h.2
    cases hh
    · simp only [if_true, if_neg h4]
      rw [classifyLineUnbuffered_eq _ _ _ (by simp)]
    · simp only [Bool.true_eq_false, if_false]
      rw [classifyLineUnbuffered_eq _ _ _ (by simp)]

theorem processLineUnbuffered_body (vc : List String) (u : DirectState) (line : String)
    (h : u.bodyMode) :
    processLineUnbuffered (buildValidMap vc) u line = u.route vc line := by
  apply processLineUnbuffered_route vc u line h.1
  rcases h.2 with h2 | ⟨h2, h3⟩
  · exact Or.inl h2
  · exact Or.inr ⟨h2, Or.inl h3⟩

theorem route_bodyMode (vc : List String) (u : DirectState) (line : String)
    (h : u.bodyMode) : (u.route vc line).bodyMode := by
  obtain ⟨h1, h2⟩ := h
  refine ⟨h1, ?_⟩
  rcases h2 with h2 | ⟨h2, _⟩
  · exact Or.inl h2
  · exact Or.inr ⟨h2, Nat.succ_ne_zero _⟩

theorem run_body (vc : List String) (lines : List String) (u : DirectState) (h : u.bodyMode) :
    lines.foldl (processLineUnbuffered (buildValidMap vc)) u =
      { u with
        processedLines := u.processedLines + lines.length,
        outputFileHandle := u.outputFileHandle ++ lines.filter (keeps vc),
        missingFile := u.missingFile ++ (lines.filter (reports vc)).map firstField,
        totalDictLines := u.totalDictLines + (lines.filter (fun l => !isStructural l)).length,
        validLines := u.validLines +
          (lines.filter (fun l => !isStructural l && decide (firstField l ∈ vc))).length,
        missingLines := u.missingLines + (lines.filter (reports vc)).length } := by
  induction lines generalizing u with
  | nil => simp
  | cons l ls ih =>
    rw [List.foldl_cons, processLineUnbuffered_body vc u l h, ih _ (route_bodyMode vc u l h)]
    unfold DirectState.route
    by_cases hs : isStructural l = true
    · simp [hs, keeps, reports, List.filter_cons]
      omega
    · by_cases hv : firstField l ∈ vc
      · simp [hs, hv, keeps, reports, List.filter_cons]
        omega
      · simp [hs, hv, keeps, reports, List.filter_cons]
        omega

theorem processLineUnbuffered_header (vm : String → Bool) (u : DirectState) (line : String)
    (h1 : u.inHeader = true) (h2 : u.headerHandled = false) :
    processLineUnbuffered vm u line =
      if strings.TrimSpace line = "..." then
        { u with processedLines := u.processedLines + 1, outputFileHandle := u.outputFileHandle ++ [line],
                 inHeader := false, headerHandled := true }
      else
        { u with processedLines := u.processedLines + 1, outputFileHandle := u.outputFileHandle ++ [line] } := by
  unfold processLineUnbuffered
  simp [h1, h2]

theorem run_header (vc : List String) (lines : List String) (u : DirectState)
    (h1 : u.inHeader = true) (h2 : u.headerHandled = false) :
    lines.foldl (processLineUnbuffered (buildValidMap vc)) u =
      { u with
        processedLines := u.processedLines + lines.length,
        outputFileHandle := u.outputFileHandle ++ lines.take (closeIndex lines) ++
          (lines.drop (closeIndex lines)).filter (keeps vc),
        missingFile := u.missingFile ++ ((lines.drop (closeIndex lines)).filter (reports vc)).map firstField,
        totalDictLines := u.totalDictLines +
          ((lines.drop (closeIndex lines)).filter (fun l => !isStructural l)).length,
        validLines := u.validLines +
          ((lines.drop (closeIndex lines)).filter
            (fun l => !isStructural l && decide (firstField l ∈ vc))).length,
        missingLines := u.missingLines + ((lines.drop (closeIndex lines)).filter (reports vc)).length,
        inHeader := lines.all (fun l => decide (strings.TrimSpace l ≠ "...")),
        headerHandled := !lines.all (fun l => decide (strings.TrimSpace l ≠ "...")) } := by
  induction lines generalizing u with
  | nil =>
    obtain ⟨out, mis, pl, t, v, m, ih, hf, hh⟩ := u
    simp only at h1 h2
    simp [closeIndex, h1, h2]
  | cons l ls ih =>
    rw [List.foldl_cons, processLineUnbuffered_header _ u l h1 h2]
    by_cases hc : strings.TrimSpace l = "..."
    · rw [if_pos hc, run_body]
      · simp [closeIndex, hc]
        omega
      · exact ⟨rfl, Or.inl rfl⟩
    · rw [if_neg hc, ih]
      · simp [closeIndex, hc]
        omega
      · exact h1
      · exact h2

theorem filterDictUnbuffered_eq (vc : List String) (input : List String) :
    (filterDictUnbuffered input vc).outputFileHandle =
        input.take (frontMatterLen input) ++ (input.drop (frontMatterLen input)).filter (keeps vc) ∧
    (filterDictUnbuffered input vc).missingFile =
        ((input.drop (frontMatterLen input)).filter (reports vc)).map firstField ∧
    (filterDictUnbuffered input vc).totalDictLines =
        ((input.drop (frontMatterLen input)).filter (fun l => !isStructural l)).length ∧
    (filterDictUnbuffered input vc).validLines =
        ((input.drop (frontMatterLen input)).filter
          (fun l => !isStructural l && decide (firstField l ∈ vc))).length ∧
    (filterDictUnbuffered input vc).missingLines =
        ((input.drop (frontMatterLen input)).filter (reports vc)).length ∧
    (filterDictUnbuffered input vc).processedLines = input.length := by
  unfold filterDictUnbuffered
  cases input with
  | nil => simp [DirectState.init, frontMatterLen]
  | cons first rest =>
    rw [List.foldl_cons]
    by_cases hf : strings.TrimSpace first = "---"
    · have hstep : processLineUnbuffered (buildValidMap vc) DirectState.init first =
          { DirectState.init with processedLines := 1, inHeader := true, headerFound := true,
                                  outputFileHandle := [first] } := by
        unfold processLineUnbuffered
        simp [DirectState.init, hf]
      rw [hstep, run_header _ _ _ rfl rfl]
      simp [frontMatterLen, hf, DirectState.init]
      omega
    · rw [processLineUnbuffered_route vc _ first rfl (Or.inr ⟨rfl, Or.inr hf⟩), run_body]
      · unfold DirectState.route
        by_cases hs : isStructural first = true
        · simp [frontMatterLen, hf, DirectState.init, hs, keeps, reports, List.filter_cons]
          omega
        · by_cases hv : firstField first ∈ vc
          · simp [frontMatterLen, hf, DirectState.init, hs, hv, keeps, reports, List.filter_cons]
            omega
          · simp [frontMatterLen, hf, DirectState.init, hs, hv, keeps, reports, List.filter_cons]
            omega
      · exact ⟨rfl, Or.inr ⟨rfl, Nat.succ_ne_zero _⟩⟩

theorem classifyLineUnbuffered_flags (vm : String → Bool) (u : DirectState) (line t : String)
    (hsyn : ¬(u.headerFound = true ∧ u.inHeader = false ∧ u.headerHandled = false)) :
    (classifyLineUnbuffered vm u line t).inHeader = u.inHeader ∧
    (classifyLineUnbuffered vm u line t).headerFound = u.headerFound ∧
    (classifyLineUnbuffered vm u line t).headerHandled = u.headerHandled ∧
    (classifyLineUnbuffered vm u line t).processedLines = u.processedLines := by
  unfold classifyLineUnbuffered
  simp only [if_neg hsyn]
  repeat' split
  all_goals simp

theorem classifyLine_inv (vm : String → Bool) (cs : Int) (s : FilterState) (line t : String)
    (h1 : s.inHeader = false) (h2 : s.processedLines ≠ 0)
    (h3 : s.headerFound = true → s.headerHandled = true) :
    (classifyLine vm cs s line t).Inv := by
  have hsyn : ¬(s.headerFound = true ∧ s.inHeader = false ∧ s.headerHandled = false) := by
    intro h
    have := h3 h.1
    simp [this] at h
  have hu := classifyLine_unbuffered vm cs s line t hsyn
  have hf := classifyLineUnbuffered_flags vm s.unbuffered line t hsyn
  rw [← hu] at hf
  obtain ⟨f1, f2, f3, f4⟩ := hf
  simp only [FilterState.unbuffered] at f1 f2 f3 f4
  refine ⟨?_, ?_, ?_⟩
  · rw [f2, f3]
    intro h
    exact Or.inr (h3 h)
  · rw [f1, h1]
    intro h
    cases h
  · rw [f4]
    intro h
    exact absurd h h2

theorem processLine_sim (vm : String → Bool) (cs : Int) (s : FilterState) (line : String)
    (h : s.Inv) :
    (processLine vm cs s line).Inv ∧
    (processLine vm cs s line).unbuffered = processLineUnbuffered vm s.unbuffered line := by
  obtain ⟨i1, i2, i3⟩ := h
  by_cases hh : s.headerHandled = true
  · have hih : s.inHeader = false := by
      cases hi : s.inHeader
      · rfl
      · have := (i2 hi).1
        simp [hh] at this
    have e1 : processLine vm cs s line =
        classifyLine vm cs { s with processedLines := s.processedLines + 1 } line
          (strings.TrimSpace line) := by
      unfold processLine
      simp [hh]
    have e2 : processLineUnbuffered vm s.unbuffered line =
        classifyLineUnbuffered vm { s.unbuffered with processedLines := s.processedLines + 1 }
          line (strings.TrimSpace line) := by
      unfold processLineUnbuffered
      simp [FilterState.unbuffered, hh]
    rw [e1, e2]
    refine ⟨classifyLine_inv _ _ _ _ _ hih (Nat.succ_ne_zero _) (fun _ => hh), ?_⟩
    rw [classifyLine_unbuffered _ _ _ _ _ (by simp [hh])]
    rfl
  · have hh2 : s.headerHandled = false := by simpa using hh
    by_cases hih : s.inHeader = true
    · have hoc := (i2 hih).2
      unfold processLine processLineUnbuffered
      by_cases hc : strings.TrimSpace line = "..."
      · simp [FilterState.unbuffered, FilterState.Inv, hh2, hih, hoc, hc]
      · simp [FilterState.unbuffered, FilterState.Inv, hh2, hih, hoc, hc]
    · have hih2 : s.inHeader = false := by simpa using hih
      have hhf : s.headerFound = false := by
        cases hf : s.headerFound
        · rfl
        · rcases i1 hf with h | h
          · exact absurd h hih
          · exact absurd h hh
      by_cases hfirst : s.processedLines + 1 = 1 ∧ strings.TrimSpace line = "---"
      · have hoc : s.outputCache = [] := i3 (by omega)
        unfold processLine processLineUnbuffered
        simp [FilterState.unbuffered, FilterState.Inv, hh2, hih2, hfirst, hoc]
      · have e1 : processLine vm cs s line =
            classifyLine vm cs { s with processedLines := s.processedLines + 1 } line
              (strings.TrimSpace line) := by
          unfold processLine
          simp only [hh2, hih2, if_true, if_neg hfirst]
        have e2 : processLineUnbuffered vm s.unbuffered line =
            classifyLineUnbuffered vm { s.unbuffered with processedLines := s.processedLines + 1 }
              line (strings.TrimSpace line) := by
          unfold processLineUnbuffered
          simp only [FilterState.unbuffered, hh2, hih2, if_true, if_neg hfirst]
        rw [e1, e2]
        refine ⟨classifyLine_inv _ _ _ _ _ hih2 (Nat.succ_ne_zero _) (fun h => ?_), ?_⟩
        · simp [hhf] at h
        · rw [classifyLine_unbuffered _ _ _ _ _ (by simp [hhf])]
          rfl

theorem foldl_processLine_sim (vm : String → Bool) (cs : Int) (lines : List String)
    (s : FilterState) (h : s.Inv) :
    (lines.foldl (processLine vm cs) s).Inv ∧
    (lines.foldl (processLine vm cs) s).unbuffered =
      lines.foldl (processLineUnbuffered vm) s.unbuffered := by
  induction lines generalizing s with
  | nil => exact ⟨h, rfl⟩
  | cons l ls ih =>
    have hstep := processLine_sim vm cs s l h
    rw [List.foldl_cons, List.foldl_cons, ← hstep.2]
    exact ih _ hstep.1

theorem init_inv : FilterState.init.Inv := by
  simp [FilterState.Inv, FilterState.init]

theorem finalFlush_unbuffered (s : FilterState) :
    (finalFlush s).outputFileHandle = s.unbuffered.outputFileHandle ∧
    (finalFlush s).missingFile = s.unbuffered.missingFile ∧
    (finalFlush s).totalDictLines = s.unbuffered.totalDictLines ∧
    (finalFlush s).validLines = s.unbuffered.validLines ∧
    (finalFlush s).missingLines = s.unbuffered.missingLines := by
  obtain ⟨out, mis, oc, mc, occ, mcc, pl, t, v, m, ih, hf, hh⟩ := s
  cases oc <;> cases mc <;> simp [finalFlush, FilterState.unbuffered, writeLines_eq]

theorem filterDict_unbuffered (input vc : List String) (cs : Int) :
    (filterDict input vc cs).outputFileHandle = (filterDictUnbuffered input vc).outputFileHandle ∧
    (filterDict input vc cs).missingFile = (filterDictUnbuffered input vc).missingFile ∧
    (filterDict input vc cs).totalDictLines = (filterDictUnbuffered input vc).totalDictLines ∧
    (filterDict input vc cs).validLines = (filterDictUnbuffered input vc).validLines ∧
    (filterDict input vc cs).missingLines = (filterDictUnbuffered input vc).missingLines := by
  have hsim := (foldl_processLine_sim (buildValidMap vc) cs input FilterState.init init_inv).2
  have hfin := finalFlush_unbuffered (runLoop (buildValidMap vc) cs input)
  unfold filterDict filterDictUnbuffered
  unfold runLoop at hfin
  rw [hsim] at hfin
  exact hfin

theorem processLineUnbuffered_extends (vm : String → Bool) (u : DirectState) (line : String) :
    u.outputFileHandle <+: (processLineUnbuffered vm u line).outputFileHandle ∧
    u.missingFile <+: (processLineUnbuffered vm u line).missingFile := by
  have hc : ∀ (u : DirectState) (t : String),
      u.outputFileHandle <+: (classifyLineUnbuffered vm u line t).outputFileHandle ∧
      u.missingFile <+: (classifyLineUnbuffered vm u line t).missingFile := by
    intro u t
    obtain ⟨out, mis, pl, tt, v, m, ih, hf, hh⟩ := u
    unfold classifyLineUnbuffered
    by_cases hsyn : hf = true ∧ ih = false ∧ hh = false
    · simp only [if_pos hsyn]
      split
      · simp [List.append_assoc]
      · split
        · simp [List.append_assoc]
        · split
          · simp
          · split <;> simp
    · simp only [if_neg hsyn]
      split
      · simp
      · split
        · simp
        · split
          · simp
          · split <;> simp
  obtain ⟨out, mis, pl, tt, v, m, ih, hf, hh⟩ := u
  unfold processLineUnbuffered
  cases hh
  · cases ih
    · by_cases h1 : pl + 1 = 1 ∧ strings.TrimSpace line = "---"
      · simp [h1]
      · simp only [if_true, if_neg h1]
        exact hc ⟨out, mis, pl + 1, tt, v, m, false, hf, false⟩ _
    · by_cases h2 : strings.TrimSpace line = "..." <;> simp [h2]
  · simp only [Bool.true_eq_false, if_false]
    exact hc ⟨out, mis, pl + 1, tt, v, m, ih, hf, true⟩ _

theorem foldl_unbuffered_extends (vm : String → Bool) (lines : List String) (u : DirectState) :
    u.outputFileHandle <+: (lines.foldl (processLineUnbuffered vm) u).outputFileHandle ∧
    u.missingFile <+: (lines.foldl (processLineUnbuffered vm) u).missingFile := by
  induction lines generalizing u with
  | nil => simp
  | cons l ls ih =>
    rw [List.foldl_cons]
    have h1 := processLineUnbuffered_extends vm u l
    have h2 := ih (processLineUnbuffered vm u l)
    exact ⟨h1.1.trans h2.1, h1.2.trans h2.2⟩

theorem filterDict_extends (pre post vc : List String) (cs : Int) :
    (filterDict pre vc cs).outputFileHandle <+: (filterDict (pre ++ post) vc cs).outputFileHandle ∧
    (filterDict pre vc cs).missingFile <+: (filterDict (pre ++ post) vc cs).missingFile := by
  rw [(filterDict_unbuffered pre vc cs).1, (filterDict_unbuffered pre vc cs).2.1,
    (filterDict_unbuffered (pre ++ post) vc cs).1, (filterDict_unbuffered (pre ++ post) vc cs).2.1]
  unfold filterDictUnbuffered
  rw [List.foldl_append]
  exact foldl_unbuffered_extends _ _ _

/-! ## Facts about the front-matter block -/

theorem closeIndex_le (ls : List String) : closeIndex ls ≤ ls.length := by
  induction ls with
  | nil => simp [closeIndex]
  | cons l ls ih =>
    by_cases hc : strings.TrimSpace l = "..."
    · simp [closeIndex, hc]
    · simp [closeIndex, hc, ih]

theorem closeIndex_append_of_close (body xs : List String)
    (h : body.all (fun l => decide (strings.TrimSpace l ≠ "...")) = false) :
    closeIndex (body ++ xs) = closeIndex body := by
  induction body with
  | nil => simp at h
  | cons l ls ih =>
    by_cases hc : strings.TrimSpace l = "..."
    · simp [closeIndex, hc]
    · have h2 : ls.all (fun l => decide (strings.TrimSpace l ≠ "...")) = false := by
        simpa [List.all_cons, hc] using h
      simp [closeIndex, hc, ih h2]

theorem closeIndex_of_no_close (body : List String)
    (h : body.all (fun l => decide (strings.TrimSpace l ≠ "...")) = true) :
    closeIndex body = body.length := by
  induction body with
  | nil => simp [closeIndex]
  | cons l ls ih =>
    simp only [List.all_cons, Bool.and_eq_true, decide_eq_true_eq] at h
    simp [closeIndex, h.1, ih h.2]

theorem closeIndex_append_singleton (body : List String) (line : String)
    (h : body.all (fun l => decide (strings.TrimSpace l ≠ "...")) = true) :
    closeIndex (body ++ [line]) = body.length + 1 := by
  induction body with
  | nil => simp [closeIndex]
  | cons l ls ih =>
    simp only [List.all_cons, Bool.and_eq_true, decide_eq_true_eq] at h
    simp [closeIndex, h.1, ih h.2]

theorem closeIndex_append_close (body rest : List String) (close : String)
    (h : ∀ l ∈ body, strings.TrimSpace l ≠ "...") (hc : strings.TrimSpace close = "...") :
    closeIndex (body ++ close :: rest) = body.length + 1 := by
  induction body with
  | nil => simp [closeIndex, hc]
  | cons l ls ih =>
    have h1 : strings.TrimSpace l ≠ "..." := h l (List.mem_cons_self _ _)
    have h2 : ∀ x ∈ ls, strings.TrimSpace x ≠ "..." := fun x hx => h x (List.mem_cons_of_mem _ hx)
    simp [closeIndex, h1, ih h2]

theorem frontMatterLen_le (input : List String) : frontMatterLen input ≤ input.length := by
  cases input with
  | nil => simp [frontMatterLen]
  | cons first rest =>
    by_cases hf : strings.TrimSpace first = "---"
    · simp [frontMatterLen, hf, closeIndex_le rest]
    · simp [frontMatterLen, hf]

theorem frontMatterLen_outside (pre post : List String) (line : String)
    (h : inFrontMatter pre line = false) :
    frontMatterLen (pre ++ line :: post) = frontMatterLen pre := by
  cases pre with
  | nil =>
    have h1 : strings.TrimSpace line ≠ "---" := by simpa [inFrontMatter] using h
    simp [frontMatterLen, h1]
  | cons first body =>
    by_cases hf : strings.TrimSpace first = "---"
    · have h2 : body.all (fun l => decide (strings.TrimSpace l ≠ "...")) = false := by
        simpa [inFrontMatter, hf] using h
      simp [frontMatterLen, hf, closeIndex_append_of_close body _ h2]
    · simp [frontMatterLen, hf]

theorem frontMatterLen_inside (pre : List String) (line : String)
    (h : inFrontMatter pre line = true) :
    frontMatterLen (pre ++ [line]) = pre.length + 1 ∧ frontMatterLen pre = pre.length := by
  cases pre with
  | nil =>
    have h1 : strings.TrimSpace line = "---" := by simpa [inFrontMatter] using h
    simp [frontMatterLen, h1, closeIndex]
  | cons first body =>
    simp only [inFrontMatter, Bool.and_eq_true, decide_eq_true_eq] at h
    simp [frontMatterLen, h.1, closeIndex_append_singleton body line h.2,
      closeIndex_of_no_close body h.2]

/-- Closed form of `filterDict`: the front-matter block verbatim, then the
lines the body rules keep; the keys the body rules report; the counters. -/
theorem filterDict_eq (input vc : List String) (cs : Int) :
    (filterDict input vc cs).outputFileHandle =
        input.take (frontMatterLen input) ++ (input.drop (frontMatterLen input)).filter (keeps vc) ∧
    (filterDict input vc cs).missingFile =
        ((input.drop (frontMatterLen input)).filter (reports vc)).map firstField ∧
    (filterDict input vc cs).totalDictLines =
        ((input.drop (frontMatterLen input)).filter (fun l => !isStructural l)).length ∧
    (filterDict input vc cs).validLines =
        ((input.drop (frontMatterLen input)).filter
          (fun l => !isStructural l && decide (firstField l ∈ vc))).length ∧
    (filterDict input vc cs).missingLines =
        ((input.drop (frontMatterLen input)).filter (reports vc)).length := by
  obtain ⟨h1, h2, h3, h4, h5⟩ := filterDict_unbuffered input vc cs
  obtain ⟨g1, g2, g3, g4, g5, _⟩ := filterDictUnbuffered_eq vc input
  exact ⟨h1.trans g1, h2.trans g2, h3.trans g3, h4.trans g4, h5.trans g5⟩

/-- What `filterDict` has produced after one more line that lies outside the
front-matter block. -/
theorem filterDict_snoc_outside (pre vc : List String) (line : String) (cs : Int)
    (h : inFrontMatter pre line = false) :
    (filterDict (pre ++ [line]) vc cs).outputFileHandle =
        (filterDict pre vc cs).outputFileHandle ++ (if keeps vc line = true then [line] else []) ∧
    (filterDict (pre ++ [line]) vc cs).missingFile =
        (filterDict pre vc cs).missingFile ++ (if reports vc line = true then [firstField line] else []) ∧
    (filterDict (pre ++ [line]) vc cs).totalDictLines =
        (filterDict pre vc cs).totalDictLines + (if isStructural line = true then 0 else 1) ∧
    (filterDict (pre ++ [line]) vc cs).validLines =
        (filterDict pre vc cs).validLines +
          (if isStructural line = false ∧ firstField line ∈ vc then 1 else 0) ∧
    (filterDict (pre ++ [line]) vc cs).missingLines =
        (filterDict pre vc cs).missingLines + (if reports vc line = true then 1 else 0) := by
  obtain ⟨a1, a2, a3, a4, a5⟩ := filterDict_eq (pre ++ [line]) vc cs
  obtain ⟨b1, b2, b3, b4, b5⟩ := filterDict_eq pre vc cs
  have hn := frontMatterLen_outside pre [] line h
  have hle := frontMatterLen_le pre
  rw [a1, a2, a3, a4, a5, b1, b2, b3, b4, b5, hn]
  rw [List.take_append_of_le_length hle, List.drop_append_of_le_length hle]
  by_cases hs : isStructural line = true
  · simp [hs, keeps, reports, List.filter_cons]
  · by_cases hv : firstField line ∈ vc
    · simp [hs, hv, keeps, reports, List.filter_cons]
    · simp [hs, hv, keeps, reports, List.filter_cons]

/-- What `filterDict` has produced after one more line that lies inside the
front-matter block. -/
theorem filterDict_snoc_inside (pre vc : List String) (line : String) (cs : Int)
    (h : inFrontMatter pre line = true) :
    (filterDict (pre ++ [line]) vc cs).outputFileHandle = (filterDict pre vc cs).outputFileHandle ++ [line] ∧
    (filterDict (pre ++ [line]) vc cs).missingFile = (filterDict pre vc cs).missingFile ∧
    (filterDict (pre ++ [line]) vc cs).totalDictLines = (filterDict pre vc cs).totalDictLines ∧
    (filterDict (pre ++ [line]) vc cs).validLines = (filterDict pre vc cs).validLines ∧
    (filterDict (pre ++ [line]) vc cs).missingLines = (filterDict pre vc cs).missingLines := by
  obtain ⟨a1, a2, a3, a4, a5⟩ := filterDict_eq (pre ++ [line]) vc cs
  obtain ⟨b1, b2, b3, b4, b5⟩ := filterDict_eq pre vc cs
  obtain ⟨hn1, hn2⟩ := frontMatterLen_inside pre line h
  rw [a1, a2, a3, a4, a5, b1, b2, b3, b4, b5, hn1, hn2]
  have e1 : pre.length + 1 = (pre ++ [line]).length := by simp
  rw [e1]
  simp

theorem isStructural_eq_false (line : String)
    (h1 : strings.TrimSpace line ≠ "") (h2 : strings.HasPrefix (strings.TrimSpace line) "#" = false)
    (h3 : strings.TrimSpace line ≠ "---") (h4 : strings.TrimSpace line ≠ "...") :
    isStructural line = false := by
  simp [isStructural, h1, h2, h3, h4]

theorem isStructural_eq_true (line : String)
    (h : strings.TrimSpace line = "" ∨ strings.HasPrefix (strings.TrimSpace line) "#" = true ∨
      strings.TrimSpace line = "---" ∨ strings.TrimSpace line = "...") :
    isStructural line = true := by
  unfold isStructural
  rcases h with h | h | h | h <;> simp [h]

theorem count_map_filter (f : String → String) (p : String → Bool) (l : List String)
    (k : String) :
    ((l.filter p).map f).count k = (l.filter (fun x => p x && decide (f x = k))).length := by
  induction l with
  | nil => simp
  | cons a as ih =>
    by_cases hp : p a = true
    · by_cases hk : f a = k
      · simp [List.filter_cons, hp, hk, ih]
      · simp [List.filter_cons, hp, hk, ih, List.count_cons]
    · simp [List.filter_cons, hp, ih]

theorem filter_length_split (p q : String → Bool) (l : List String) :
    (l.filter p).length =
      (l.filter (fun x => p x && q x)).length + (l.filter (fun x => p x && !q x)).length := by
  induction l with
  | nil => simp
  | cons a as ih =>
    by_cases hp : p a = true
    · by_cases hq : q a = true
      · simp [List.filter_cons, hp, hq, ih]
        omega
      · simp [List.filter_cons, hp, hq, ih]
        omega
    · simp [List.filter_cons, hp, ih]

/-! ## Properties of `filterDict` -/

/-- C1 (defect of the code): on the input `---`, `a: 1`, `字 x` with `字` in
the character set, `filterDict` writes the three input lines and no
synthesized `...` line, so the filtered output differs from the four lines the
claim expects. -/
theorem synthesized_close_token_absent :
    (filterDict ["---", "a: 1", "字 x"] ["字"] 1000).outputFileHandle = ["---", "a: 1", "字 x"] ∧
    (filterDict ["---", "a: 1", "字 x"] ["字"] 1000).outputFileHandle ≠ ["---", "a: 1", "...", "字 x"] := by
  decide

/-- C2: a content entry outside the front-matter block (trimmed text not
empty, not starting with `#`, neither `---` nor `...`) has a first field
`key`; processing it appends the full line to the filtered output and nothing
to the missing report when `key` is in the character set, and appends nothing
to the filtered output and exactly `key` to the missing report when it is not;
what has been produced then stays in place whatever lines follow. -/
theorem content_entry_routing (vc pre post : List String) (line : String) (cacheSize : Int)
    (_hcs : 0 < cacheSize)
    (hout : inFrontMatter pre line = false)
    (h1 : strings.TrimSpace line ≠ "")
    (h2 : strings.HasPrefix (strings.TrimSpace line) "#" = false)
    (h3 : strings.TrimSpace line ≠ "---") (h4 : strings.TrimSpace line ≠ "...") :
    ∃ key rest, strings.Fields line = key :: rest ∧
      (key ∈ vc →
        (filterDict (pre ++ [line]) vc cacheSize).outputFileHandle =
            (filterDict pre vc cacheSize).outputFileHandle ++ [line] ∧
        (filterDict (pre ++ [line]) vc cacheSize).missingFile = (filterDict pre vc cacheSize).missingFile) ∧
      (key ∉ vc →
        (filterDict (pre ++ [line]) vc cacheSize).outputFileHandle = (filterDict pre vc cacheSize).outputFileHandle ∧
        (filterDict (pre ++ [line]) vc cacheSize).missingFile =
            (filterDict pre vc cacheSize).missingFile ++ [key]) ∧
      (filterDict (pre ++ [line]) vc cacheSize).outputFileHandle <+:
        (filterDict (pre ++ line :: post) vc cacheSize).outputFileHandle ∧
      (filterDict (pre ++ [line]) vc cacheSize).missingFile <+:
        (filterDict (pre ++ line :: post) vc cacheSize).missingFile := by
  obtain ⟨key, rest, hk⟩ := List.exists_cons_of_ne_nil (fields_ne_nil line h1)
  have hff : firstField line = key := by simp [firstField, hk]
  have hs := isStructural_eq_false line h1 h2 h3 h4
  obtain ⟨a1, a2, _, _, _⟩ := filterDict_snoc_outside pre vc line cacheSize hout
  have hp := filterDict_extends (pre ++ [line]) post vc cacheSize
  rw [List.append_assoc, List.singleton_append] at hp
  refine ⟨key, rest, hk, ?_, ?_, hp.1, hp.2⟩
  · intro hv
    rw [a1, a2]
    simp [keeps, reports, hs, hff, hv]
  · intro hv
    rw [a1, a2]
    simp [keeps, reports, hs, hff, hv]

/-- Witness of C2: the entry `漢 x` with `漢` outside the character set is
absent from the filtered output and `漢` is the missing report. -/
theorem content_entry_routing_witness :
    (∃ key rest, strings.Fields "漢 x" = key :: rest ∧
      (key ∈ ["字"] →
        (filterDict ([] ++ ["漢 x"]) ["字"] 1000).outputFileHandle = (filterDict [] ["字"] 1000).outputFileHandle ++ ["漢 x"] ∧
        (filterDict ([] ++ ["漢 x"]) ["字"] 1000).missingFile = (filterDict [] ["字"] 1000).missingFile) ∧
      (key ∉ ["字"] →
        (filterDict ([] ++ ["漢 x"]) ["字"] 1000).outputFileHandle = (filterDict [] ["字"] 1000).outputFileHandle ∧
        (filterDict ([] ++ ["漢 x"]) ["字"] 1000).missingFile =
            (filterDict [] ["字"] 1000).missingFile ++ [key]) ∧
      (filterDict ([] ++ ["漢 x"]) ["字"] 1000).outputFileHandle <+:
        (filterDict ([] ++ "漢 x" :: ["字 y"]) ["字"] 1000).outputFileHandle ∧
      (filterDict ([] ++ ["漢 x"]) ["字"] 1000).missingFile <+:
        (filterDict ([] ++ "漢 x" :: ["字 y"]) ["字"] 1000).missingFile) ∧
    (filterDict ["漢 x", "字 y"] ["字"] 1000).outputFileHandle = ["字 y"] ∧
    (filterDict ["漢 x", "字 y"] ["字"] 1000).missingFile = ["漢"] :=
  ⟨content_entry_routing ["字"] [] ["字 y"] "漢 x" 1000 (by decide) (by decide) (by decide)
      (by decide) (by decide) (by decide),
    by decide, by decide⟩

/-- C3: the missing report is the list of first fields of the content entries
whose first field is not in the character set, in encounter order and without
deduplication; its length is `missingLines`, and a key appears as many times as
there are failing content entries with that key. -/
theorem missing_report_contents (input vc : List String) (cacheSize : Int) :
    (filterDict input vc cacheSize).missingFile =
        ((contentEntries input).filter (fun l => decide (firstField l ∉ vc))).map firstField ∧
    (filterDict input vc cacheSize).missingFile.length = (filterDict input vc cacheSize).missingLines ∧
    ∀ key, (filterDict input vc cacheSize).missingFile.count key =
        ((contentEntries input).filter
          (fun l => decide (firstField l ∉ vc) && decide (firstField l = key))).length := by
  obtain ⟨_, a2, _, _, a5⟩ := filterDict_eq input vc cacheSize
  have hfil : (contentEntries input).filter (fun l => decide (firstField l ∉ vc)) =
      (input.drop (frontMatterLen input)).filter (reports vc) := by
    unfold contentEntries
    rw [List.filter_filter]
    congr 1
    funext l
    simp [reports, Bool.and_comm]
  refine ⟨?_, ?_, ?_⟩
  · rw [a2, hfil]
  · rw [a2, a5, List.length_map]
  · intro key
    rw [a2, ← hfil, count_map_filter]

/-- C4: when line 1 trims to `---` and `close` is the first later line that
trims to `...`, the filtered output is the block from line 1 through `close`,
verbatim, followed by the lines of `rest` that the body rules keep; the
missing report and the three counters depend on `rest` alone. -/
theorem front_matter_preserved (first close : String) (body rest vc : List String)
    (cacheSize : Int)
    (hopen : strings.TrimSpace first = "---")
    (hbody : ∀ l ∈ body, strings.TrimSpace l ≠ "...")
    (hclose : strings.TrimSpace close = "...") :
    (filterDict (first :: body ++ close :: rest) vc cacheSize).outputFileHandle =
        (first :: body ++ [close]) ++ rest.filter (keeps vc) ∧
    (filterDict (first :: body ++ close :: rest) vc cacheSize).missingFile =
        (rest.filter (reports vc)).map firstField ∧
    (filterDict (first :: body ++ close :: rest) vc cacheSize).totalDictLines =
        (rest.filter (fun l => !isStructural l)).length ∧
    (filterDict (first :: body ++ close :: rest) vc cacheSize).validLines =
        (rest.filter (fun l => !isStructural l && decide (firstField l ∈ vc))).length ∧
    (filterDict (first :: body ++ close :: rest) vc cacheSize).missingLines =
        (rest.filter (reports vc)).length := by
  have hn : frontMatterLen (first :: body ++ close :: rest) = (first :: body ++ [close]).length := by
    simp [frontMatterLen, hopen, closeIndex_append_close body rest close hbody hclose]
  have hsplit : first :: body ++ close :: rest = (first :: body ++ [close]) ++ rest := by simp
  obtain ⟨a1, a2, a3, a4, a5⟩ := filterDict_eq (first :: body ++ close :: rest) vc cacheSize
  have ht : (first :: body ++ close :: rest).take (first :: body ++ [close]).length =
      first :: body ++ [close] := by
    rw [hsplit, List.take_left]
  have hd : (first :: body ++ close :: rest).drop (first :: body ++ [close]).length = rest := by
    rw [hsplit, List.drop_left]
  rw [hn, ht, hd] at a1
  rw [hn, hd] at a2 a3 a4 a5
  exact ⟨a1, a2, a3, a4, a5⟩

/-- Witness of C4: `---`, `a: 1`, `...`, `字 code x` with `字` in the character
set yields the same four lines. -/
theorem front_matter_preserved_witness :
    (strings.TrimSpace "---" = "---" ∧ (∀ l ∈ ["a: 1"], strings.TrimSpace l ≠ "...") ∧
      strings.TrimSpace "..." = "...") ∧
    ((filterDict ("---" :: ["a: 1"] ++ "..." :: ["字 code x"]) ["字"] 1000).outputFileHandle =
        ("---" :: ["a: 1"] ++ ["..."]) ++ ["字 code x"].filter (keeps ["字"]) ∧
     (filterDict ("---" :: ["a: 1"] ++ "..." :: ["字 code x"]) ["字"] 1000).missingFile =
        (["字 code x"].filter (reports ["字"])).map firstField ∧
     (filterDict ("---" :: ["a: 1"] ++ "..." :: ["字 code x"]) ["字"] 1000).totalDictLines =
        (["字 code x"].filter (fun l => !isStructural l)).length ∧
     (filterDict ("---" :: ["a: 1"] ++ "..." :: ["字 code x"]) ["字"] 1000).validLines =
        (["字 code x"].filter (fun l => !isStructural l && decide (firstField l ∈ ["字"]))).length ∧
     (filterDict ("---" :: ["a: 1"] ++ "..." :: ["字 code x"]) ["字"] 1000).missingLines =
        (["字 code x"].filter (reports ["字"])).length) ∧
    (filterDict ["---", "a: 1", "...", "字 code x"] ["字"] 1000).outputFileHandle =
        ["---", "a: 1", "...", "字 code x"] :=
  ⟨⟨by decide, by decide, by decide⟩,
    front_matter_preserved "---" "..." ["a: 1"] ["字 code x"] ["字"] 1000 (by decide) (by decide)
      (by decide),
    by decide⟩

/-- C5: a line whose trimmed content is empty, starts with `#`, or is exactly
`---` or `...` is appended unchanged to the filtered output, adds nothing to
the missing report and leaves the three counters as they are, wherever it
stands in the input (inside or outside the front-matter block); the line
stays in place whatever lines follow. -/
theorem structural_passthrough (vc pre post : List String) (line : String) (cacheSize : Int)
    (h : strings.TrimSpace line = "" ∨ strings.HasPrefix (strings.TrimSpace line) "#" = true ∨
      strings.TrimSpace line = "---" ∨ strings.TrimSpace line = "...") :
    (filterDict (pre ++ [line]) vc cacheSize).outputFileHandle =
        (filterDict pre vc cacheSize).outputFileHandle ++ [line] ∧
    (filterDict (pre ++ [line]) vc cacheSize).missingFile = (filterDict pre vc cacheSize).missingFile ∧
    (filterDict (pre ++ [line]) vc cacheSize).totalDictLines =
        (filterDict pre vc cacheSize).totalDictLines ∧
    (filterDict (pre ++ [line]) vc cacheSize).validLines =
        (filterDict pre vc cacheSize).validLines ∧
    (filterDict (pre ++ [line]) vc cacheSize).missingLines =
        (filterDict pre vc cacheSize).missingLines ∧
    (filterDict (pre ++ [line]) vc cacheSize).outputFileHandle <+:
        (filterDict (pre ++ line :: post) vc cacheSize).outputFileHandle := by
  have hs := isStructural_eq_true line h
  have hp := (filterDict_extends (pre ++ [line]) post vc cacheSize).1
  rw [List.append_assoc, List.singleton_append] at hp
  cases hin : inFrontMatter pre line
  · obtain ⟨a1, a2, a3, a4, a5⟩ := filterDict_snoc_outside pre vc line cacheSize hin
    rw [a1, a2, a3, a4, a5]
    simp [keeps, reports, hs]
    simpa [a1, keeps, hs] using hp
  · obtain ⟨a1, a2, a3, a4, a5⟩ := filterDict_snoc_inside pre vc line cacheSize hin
    exact ⟨a1, a2, a3, a4, a5, hp⟩

/-- Witness of C5: a comment line after a content entry, and an empty line
inside a front-matter block, pass through unchanged and are not counted. -/
theorem structural_passthrough_witness :
    (strings.TrimSpace "# comment" = "" ∨
      strings.HasPrefix (strings.TrimSpace "# comment") "#" = true ∨
      strings.TrimSpace "# comment" = "---" ∨ strings.TrimSpace "# comment" = "...") ∧
    ((filterDict (["漢 x"] ++ ["# comment"]) ["字"] 1000).outputFileHandle =
        (filterDict ["漢 x"] ["字"] 1000).outputFileHandle ++ ["# comment"] ∧
     (filterDict (["漢 x"] ++ ["# comment"]) ["字"] 1000).missingFile =
        (filterDict ["漢 x"] ["字"] 1000).missingFile ∧
     (filterDict (["漢 x"] ++ ["# comment"]) ["字"] 1000).totalDictLines =
        (filterDict ["漢 x"] ["字"] 1000).totalDictLines ∧
     (filterDict (["漢 x"] ++ ["# comment"]) ["字"] 1000).validLines =
        (filterDict ["漢 x"] ["字"] 1000).validLines ∧
     (filterDict (["漢 x"] ++ ["# comment"]) ["字"] 1000).missingLines =
        (filterDict ["漢 x"] ["字"] 1000).missingLines ∧
     (filterDict (["漢 x"] ++ ["# comment"]) ["字"] 1000).outputFileHandle <+:
        (filterDict (["漢 x"] ++ "# comment" :: ["字 y"]) ["字"] 1000).outputFileHandle) ∧
    (filterDict ["漢 x", "# comment", "", "字 y"] ["字"] 1000).outputFileHandle = ["# comment", "", "字 y"] ∧
    (filterDict ["漢 x", "# comment", "", "字 y"] ["字"] 1000).totalDictLines = 2 :=
  ⟨by decide,
    structural_passthrough ["字"] ["漢 x"] ["字 y"] "# comment" 1000 (by decide),
    by decide, by decide⟩

/-- C6: for every positive `cacheSize`, the lines written to the filtered
output and to the missing report by the threshold flushes and the final flush
are exactly the lines the filter writes with no buffering at all, in the same
order. -/
theorem buffer_flush_correct (input vc : List String) (cacheSize : Int)
    (_hcs : 0 < cacheSize) :
    (filterDict input vc cacheSize).outputFileHandle = (filterDictUnbuffered input vc).outputFileHandle ∧
    (filterDict input vc cacheSize).missingFile = (filterDictUnbuffered input vc).missingFile := by
  obtain ⟨h1, h2, _⟩ := filterDict_unbuffered input vc cacheSize
  exact ⟨h1, h2⟩

/-- Witness of C6: with `cacheSize = 2` and five valid content lines, all five
lines are written once, in order. -/
theorem buffer_flush_correct_witness :
    (0 : Int) < 2 ∧
    ((filterDict ["一 a", "二 b", "三 c", "四 d", "五 e"] ["一", "二", "三", "四", "五"] 2).outputFileHandle =
        (filterDictUnbuffered ["一 a", "二 b", "三 c", "四 d", "五 e"]
          ["一", "二", "三", "四", "五"]).outputFileHandle ∧
     (filterDict ["一 a", "二 b", "三 c", "四 d", "五 e"] ["一", "二", "三", "四", "五"] 2).missingFile =
        (filterDictUnbuffered ["一 a", "二 b", "三 c", "四 d", "五 e"]
          ["一", "二", "三", "四", "五"]).missingFile) ∧
    (filterDict ["一 a", "二 b", "三 c", "四 d", "五 e"] ["一", "二", "三", "四", "五"] 2).outputFileHandle =
        ["一 a", "二 b", "三 c", "四 d", "五 e"] :=
  ⟨by decide,
    buffer_flush_correct ["一 a", "二 b", "三 c", "四 d", "五 e"] ["一", "二", "三", "四", "五"] 2
      (by decide),
    by decide⟩

/-- C7: when `filterDict` completes, `totalDictLines` equals
`validLines + missingLines`, for every input, character set and `cacheSize`. -/
theorem counter_identity (input vc : List String) (cacheSize : Int) :
    (filterDict input vc cacheSize).totalDictLines =
      (filterDict input vc cacheSize).validLines + (filterDict input vc cacheSize).missingLines := by
  obtain ⟨_, _, a3, a4, a5⟩ := filterDict_eq input vc cacheSize
  rw [a3, a4, a5]
  rw [filter_length_split (fun l => !isStructural l) (fun l => decide (firstField l ∈ vc))]
  rfl

/-! ## Facts about `extractFontChars` -/

theorem foldl_extractStep (cs : Int) (scanned : List (Option String)) (st : ExtractState) :
    (scanned.foldl (extractStep cs) st).chars ++ (scanned.foldl (extractStep cs) st).cache =
      st.chars ++ st.cache ++ decodeRecords scanned := by
  induction scanned generalizing st with
  | nil => simp [decodeRecords]
  | cons m ms ih =>
    rw [List.foldl_cons, ih]
    cases m with
    | none => simp [extractStep, decodeRecords]
    | some hex =>
      cases hp : strconv.ParseInt hex 16 32 with
      | none => simp [extractStep, decodeRecords, hp]
      | some code =>
        by_cases hc : cs ≤ (st.cache.length : Int) + 1
        · simp [extractStep, decodeRecords, hp, hc]
        · simp [extractStep, decodeRecords, hp, hc]

theorem foldl_write_eq (chars w : List String) :
    chars.foldl (fun w char => w ++ [char ++ "\n"]) w = w ++ chars.map (fun char => char ++ "\n") := by
  induction chars generalizing w with
  | nil => simp
  | cons c cs ih => simp [ih]

theorem decodeRecords_eq_nil_of_no_match (scanned : List (Option String))
    (h : (scanned.filter Option.isSome).length = 0) : decodeRecords scanned = [] := by
  induction scanned with
  | nil => rfl
  | cons m ms ih =>
    cases m with
    | none =>
      have h2 : (ms.filter Option.isSome).length = 0 := by simpa using h
      simpa [decodeRecords] using ih h2
    | some hex => simp at h

/-- Closed form of `extractFontChars`. -/
theorem extractFontChars_eq (scanned : List (Option String)) (cs : Int) :
    extractFontChars scanned cs =
      if (scanned.filter Option.isSome).length = 0 then .error .noGlyphMappings
      else if decodeRecords scanned = [] then .error .noCharsExtracted
      else .ok ⟨decodeRecords scanned, (decodeRecords scanned).map (fun char => char ++ "\n")⟩ := by
  unfold extractFontChars
  have hfold := foldl_extractStep cs scanned ⟨[], [], 0⟩
  simp only [List.nil_append] at hfold
  have hchars : (if 0 < (scanned.foldl (extractStep cs) ⟨[], [], 0⟩).cache.length then
      (scanned.foldl (extractStep cs) ⟨[], [], 0⟩).chars ++
        (scanned.foldl (extractStep cs) ⟨[], [], 0⟩).cache
      else (scanned.foldl (extractStep cs) ⟨[], [], 0⟩).chars) = decodeRecords scanned := by
    rw [← hfold]
    cases hcache : (scanned.foldl (extractStep cs) ⟨[], [], 0⟩).cache <;> simp
  simp only [hchars, foldl_write_eq, List.nil_append, List.length_eq_zero]

theorem parseDigits_first_digit (base : Nat) (c : Char) (cs : List Char) (acc n : Nat)
    (h : parseDigits base (c :: cs) acc = some n) : c ≠ '+' ∧ c ≠ '-' := by
  constructor
  · rintro rfl
    simp [parseDigits, digitVal] at h
  · rintro rfl
    simp [parseDigits, digitVal] at h

theorem ParseInt_of_hexValue (hex : String) (n : Nat) (h : hexValue hex = some n)
    (hn : n < 2 ^ 31) : strconv.ParseInt hex 16 32 = some (n : Int) := by
  unfold hexValue at h
  unfold strconv.ParseInt
  cases hd : hex.data with
  | nil => simp [hd] at h
  | cons c cs =>
    rw [hd] at h
    simp only at h
    obtain ⟨h1, h2⟩ := parseDigits_first_digit 16 c cs 0 n h
    have hlt : n < 4294967296 := by omega
    have hcut : ¬ (2147483648 ≤ n) := by omega
    simp [h1, h2, ParseUintChars, h, hlt, hcut]

theorem runeToString_toNat (c : Char) : runeToString (c.toNat : Int) = String.singleton c := by
  unfold runeToString
  have hv : Nat.isValidChar c.toNat := c.valid
  simp [hv, Char.ofNat_toNat]

theorem char_toNat_lt (c : Char) : c.toNat < 2 ^ 31 := by
  have hv : Nat.isValidChar c.toNat := c.valid
  unfold Nat.isValidChar at hv
  omega

theorem mem_decodeRecords_of_scalar (scanned : List (Option String))
    (hvalid : ∀ hex, some hex ∈ scanned → ∃ c : Char, hexValue hex = some c.toNat) (k : String) :
    k ∈ decodeRecords scanned ↔
      ∃ hex c, some hex ∈ scanned ∧ hexValue hex = some (Char.toNat c) ∧ k = String.singleton c := by
  unfold decodeRecords
  rw [List.mem_filterMap]
  constructor
  · rintro ⟨m, hm, hk⟩
    cases m with
    | none => simp at hk
    | some hex =>
      obtain ⟨c, hc⟩ := hvalid hex hm
      rw [Option.some_bind, ParseInt_of_hexValue hex c.toNat hc (char_toNat_lt c),
        Option.map_some', runeToString_toNat] at hk
      exact ⟨hex, c, hm, hc, (Option.some.inj hk).symm⟩
  · rintro ⟨hex, c, hm, hc, rfl⟩
    refine ⟨some hex, hm, ?_⟩
    rw [Option.some_bind, ParseInt_of_hexValue hex c.toNat hc (char_toNat_lt c),
      Option.map_some', runeToString_toNat]

theorem filter_isSome_ne_zero (scanned : List (Option String)) (hex : String)
    (h : some hex ∈ scanned) : (scanned.filter Option.isSome).length ≠ 0 := by
  have hm : some hex ∈ scanned.filter Option.isSome := by
    rw [List.mem_filter]
    exact ⟨h, rfl⟩
  intro h0
  rw [List.length_eq_zero] at h0
  rw [h0] at hm
  cases hm

theorem decodeRecords_eq_nil_of_unparsable (scanned : List (Option String))
    (h : ∀ hex, some hex ∈ scanned → strconv.ParseInt hex 16 32 = none) :
    decodeRecords scanned = [] := by
  unfold decodeRecords
  rw [List.filterMap_eq_nil_iff]
  intro m hm
  cases m with
  | none => rfl
  | some hex => simp [h hex hm]

theorem decodeRecords_skip (pre post : List (Option String)) (bad : String)
    (h : strconv.ParseInt bad 16 32 = none) :
    decodeRecords (pre ++ some bad :: post) = decodeRecords (pre ++ post) := by
  simp [decodeRecords, List.filterMap_append, List.filterMap_cons, h]

theorem decodeRecords_length (scanned : List (Option String)) :
    (decodeRecords scanned).length =
      (scanned.filter
        (fun m => (m.bind (fun hex => strconv.ParseInt hex 16 32)).isSome)).length := by
  induction scanned with
  | nil => rfl
  | cons m ms ih =>
    cases m with
    | none => simpa [decodeRecords] using ih
    | some hex =>
      cases hp : strconv.ParseInt hex 16 32 with
      | none => simpa [decodeRecords, hp] using ih
      | some code =>
        simp only [decodeRecords] at ih
        simp [decodeRecords, hp, ih]

theorem runeToString_length (code : Int) : (runeToString code).length = 1 := by
  unfold runeToString
  split <;> rfl

/-! ## Properties of `extractFontChars` -/

/-- C8 (counterexample): the record `D800` has a valid hexadecimal string, and
`extractFontChars` turns it into U+FFFD, so the membership map answers true for
the string of U+FFFD, which is not the one-character string of any code point
the records name. -/
theorem glyph_membership_surrogate_counterexample :
    hexValue "D800" = some 0xD800 ∧
    extractFontChars [some "D800"] 1000 = .ok ⟨["\uFFFD"], ["\uFFFD\n"]⟩ ∧
    buildValidMap ["\uFFFD"] "\uFFFD" = true ∧
    ¬ ∃ c : Char, hexValue "D800" = some c.toNat ∧ "\uFFFD" = String.singleton c := by
  refine ⟨by decide, by decide, by decide, ?_⟩
  rintro ⟨c, hc, _⟩
  have h1 : hexValue "D800" = some 0xD800 := by decide
  rw [h1] at hc
  have h2 : c.toNat = 0xD800 := (Option.some.inj hc).symm
  have hv : Nat.isValidChar c.toNat := c.valid
  unfold Nat.isValidChar at hv
  omega

/-- C8 (amended): when there is at least one glyph record and the hexadecimal
string of every record names a Unicode scalar value (the code of some `Char`,
inside or outside the Basic Multilingual Plane), `extractFontChars` returns a
character list, and the membership map built from it answers true for exactly
the one-character strings of the code points the records name and false for
every other string. -/
theorem glyph_membership_scalar (scanned : List (Option String)) (cacheSize : Int)
    (hne : ∃ hex, some hex ∈ scanned)
    (hvalid : ∀ hex, some hex ∈ scanned → ∃ c : Char, hexValue hex = some c.toNat) :
    ∃ r, extractFontChars scanned cacheSize = .ok r ∧
      ∀ k : String, buildValidMap r.chars k = true ↔
        ∃ hex c, some hex ∈ scanned ∧ hexValue hex = some (Char.toNat c) ∧
          k = String.singleton c := by
  obtain ⟨hex, hm⟩ := hne
  obtain ⟨c, hc⟩ := hvalid hex hm
  have hmem : String.singleton c ∈ decodeRecords scanned :=
    (mem_decodeRecords_of_scalar scanned hvalid _).2 ⟨hex, c, hm, hc, rfl⟩
  have hnil : decodeRecords scanned ≠ [] := List.ne_nil_of_mem hmem
  refine ⟨⟨decodeRecords scanned, (decodeRecords scanned).map (fun char => char ++ "\n")⟩, ?_, ?_⟩
  · rw [extractFontChars_eq, if_neg (filter_isSome_ne_zero scanned hex hm), if_neg hnil]
  · intro k
    rw [buildValidMap_iff]
    exact mem_decodeRecords_of_scalar scanned hvalid k

/-- Witness of C8 (amended): the records `4E00` and `20000` (outside the Basic
Multilingual Plane) around a line that is no glyph record. -/
theorem glyph_membership_scalar_witness :
    (∃ hex, some hex ∈ [some "4E00", none, some "20000"]) ∧
    (∀ hex, some hex ∈ [some "4E00", none, some "20000"] →
      ∃ c : Char, hexValue hex = some c.toNat) ∧
    (∃ r, extractFontChars [some "4E00", none, some "20000"] 1000 = .ok r ∧
      ∀ k : String, buildValidMap r.chars k = true ↔
        ∃ hex c, some hex ∈ [some "4E00", none, some "20000"] ∧
          hexValue hex = some (Char.toNat c) ∧ k = String.singleton c) ∧
    extractFontChars [some "4E00", none, some "20000"] 1000 =
      .ok ⟨["一", "𠀀"], ["一\n", "𠀀\n"]⟩ :=
  have hvalid : ∀ hex, some hex ∈ [some "4E00", none, some "20000"] →
      ∃ c : Char, hexValue hex = some c.toNat := by
    intro hex h
    simp only [List.mem_cons, Option.some.injEq, List.mem_singleton, List.mem_nil_iff,
      or_false] at h
    rcases h with rfl | h | rfl
    · exact ⟨'一', by decide⟩
    · cases h
    · exact ⟨'𠀀', by decide⟩
  ⟨⟨"4E00", by decide⟩, hvalid,
    glyph_membership_scalar [some "4E00", none, some "20000"] 1000 ⟨"4E00", by decide⟩ hvalid,
    by decide⟩

/-- C9: for every positive `cacheSize`, `extractFontChars` returns the
characters of the records whose hexadecimal code parses, one one-character
string per such record, in order of appearance and with duplicates kept, and
writes them one per line; the result does not depend on `cacheSize`.  When no
record parses there is no list: the function fails. -/
theorem extracted_sequence (scanned : List (Option String)) (cacheSize : Int)
    (_hcs : 0 < cacheSize) :
    (decodeRecords scanned ≠ [] →
      extractFontChars scanned cacheSize =
        .ok ⟨decodeRecords scanned, (decodeRecords scanned).map (fun char => char ++ "\n")⟩) ∧
    (decodeRecords scanned = [] → ∃ e, extractFontChars scanned cacheSize = .error e) ∧
    (decodeRecords scanned).length =
      (scanned.filter
        (fun m => (m.bind (fun hex => strconv.ParseInt hex 16 32)).isSome)).length ∧
    (∀ char ∈ decodeRecords scanned, char.length = 1) := by
  refine ⟨?_, ?_, decodeRecords_length scanned, ?_⟩
  · intro hnil
    have h0 : (scanned.filter Option.isSome).length ≠ 0 :=
      fun h => hnil (decodeRecords_eq_nil_of_no_match scanned h)
    rw [extractFontChars_eq, if_neg h0, if_neg hnil]
  · intro hnil
    rw [extractFontChars_eq]
    by_cases h0 : (scanned.filter Option.isSome).length = 0
    · exact ⟨_, by rw [if_pos h0]⟩
    · exact ⟨_, by rw [if_neg h0, if_pos hnil]⟩
  · intro char hchar
    unfold decodeRecords at hchar
    rw [List.mem_filterMap] at hchar
    obtain ⟨m, _, hm⟩ := hchar
    cases m with
    | none => simp at hm
    | some hex =>
      cases hp : strconv.ParseInt hex 16 32 with
      | none => simp [hp] at hm
      | some code =>
        simp [hp] at hm
        rw [← hm]
        exact runeToString_length code

/-- Witness of C9: with `cacheSize = 2`, four records of which one does not
parse and two are equal. -/
theorem extracted_sequence_witness :
    (0 : Int) < 2 ∧
    ((decodeRecords [some "4E00", none, some "FFFFFFFF", some "4E00", some "20000"] ≠ [] →
      extractFontChars [some "4E00", none, some "FFFFFFFF", some "4E00", some "20000"] 2 =
        .ok ⟨decodeRecords [some "4E00", none, some "FFFFFFFF", some "4E00", some "20000"],
          (decodeRecords [some "4E00", none, some "FFFFFFFF", some "4E00", some "20000"]).map
            (fun char => char ++ "\n")⟩) ∧
     (decodeRecords [some "4E00", none, some "FFFFFFFF", some "4E00", some "20000"] = [] →
      ∃ e, extractFontChars [some "4E00", none, some "FFFFFFFF", some "4E00", some "20000"] 2 =
        .error e) ∧
     (decodeRecords [some "4E00", none, some "FFFFFFFF", some "4E00", some "20000"]).length =
      ([some "4E00", none, some "FFFFFFFF", some "4E00", some "20000"].filter
        (fun m => (m.bind (fun hex => strconv.ParseInt hex 16 32)).isSome)).length ∧
     (∀ char ∈ decodeRecords [some "4E00", none, some "FFFFFFFF", some "4E00", some "20000"],
        char.length = 1)) ∧
    extractFontChars [some "4E00", none, some "FFFFFFFF", some "4E00", some "20000"] 2 =
      .ok ⟨["一", "一", "𠀀"], ["一\n", "一\n", "𠀀\n"]⟩ :=
  ⟨by decide,
    extracted_sequence [some "4E00", none, some "FFFFFFFF", some "4E00", some "20000"] 2
      (by decide),
    by decide⟩

/-- Closed form of `extractFontCharsFallible`. -/
theorem extractFontCharsFallible_eq (scanned : List (Option String)) (cs : Int)
    (charFile : Option Writer) :
    extractFontCharsFallible scanned cs charFile =
      if (scanned.filter Option.isSome).length = 0 then .error .noGlyphMappings
      else if decodeRecords scanned = [] then .error .noCharsExtracted
      else
        match charFile with
        | none => .error .createFailed
        | some w =>
          if (writeChars w (decodeRecords scanned)).2 = true then .error .writeFailed
          else .ok ⟨decodeRecords scanned, (writeChars w (decodeRecords scanned)).1.written⟩ := by
  unfold extractFontCharsFallible
  have hfold := foldl_extractStep cs scanned ⟨[], [], 0⟩
  simp only [List.nil_append] at hfold
  have hchars : (if 0 < (scanned.foldl (extractStep cs) ⟨[], [], 0⟩).cache.length then
      (scanned.foldl (extractStep cs) ⟨[], [], 0⟩).chars ++
        (scanned.foldl (extractStep cs) ⟨[], [], 0⟩).cache
      else (scanned.foldl (extractStep cs) ⟨[], [], 0⟩).chars) = decodeRecords scanned := by
    rw [← hfold]
    cases hcache : (scanned.foldl (extractStep cs) ⟨[], [], 0⟩).cache <;> simp
  simp only [hchars, List.length_eq_zero]

theorem writeChars_unbounded (w : Writer) (chars : List String) (h : w.remaining = none) :
    writeChars w chars = (⟨w.written ++ chars.map (fun char => char ++ "\n"), none⟩, false) := by
  induction chars generalizing w with
  | nil =>
    obtain ⟨wr, rem⟩ := w
    simp only at h
    subst h
    simp [writeChars]
  | cons c cs ih =>
    have hw : WriteString w (c ++ "\n") = (⟨w.written ++ [c ++ "\n"], none⟩, false) := by
      obtain ⟨wr, rem⟩ := w
      simp only at h
      subst h
      rfl
    unfold writeChars
    rw [hw]
    simp only [Bool.false_eq_true, if_false]
    rw [ih _ rfl]
    simp

/-- On a character file that is created empty and accepts every write,
`extractFontCharsFallible` is `extractFontChars`. -/
theorem extractFontCharsFallible_unbounded (scanned : List (Option String)) (cs : Int) :
    extractFontCharsFallible scanned cs (some ⟨[], none⟩) = extractFontChars scanned cs := by
  rw [extractFontCharsFallible_eq, extractFontChars_eq]
  simp [writeChars_unbounded]

/-- C10 (counterexample): the record `4E00` parses and the loop produces the
character `一`, yet `extractFontChars` returns an error when the character
file cannot be created (line 302) and when the write to it fails (line 309);
so an error does not imply that zero characters were produced. -/
theorem extraction_file_failure_counterexample :
    ([some "4E00"].foldl (extractStep 1000) ⟨[], [], 0⟩).cache = ["一"] ∧
    decodeRecords [some "4E00"] = ["一"] ∧
    extractFontCharsFallible [some "4E00"] 1000 none = .error .createFailed ∧
    extractFontCharsFallible [some "4E00"] 1000 (some ⟨[], some 0⟩) = .error .writeFailed ∧
    extractFontCharsFallible [some "4E00"] 1000 (some ⟨[], none⟩) =
      .ok ⟨["一"], ["一\n"]⟩ := by
  decide

/-- C10 (amended): `extractFontChars` returns an error exactly when no
character was produced, or the character file cannot be created, or a write to
it returns an error; otherwise it returns the characters.  When there are
records and none of them parses the error is the empty-result error, whatever
the character file does.  An unparsable record among records of which some
parse is skipped: the result is that of the sequence without it, which is the
list of the other characters when the file is created and no write fails. -/
theorem extraction_error_cases (scanned : List (Option String)) (cacheSize : Int)
    (charFile : Option Writer) :
    ((∃ e, extractFontCharsFallible scanned cacheSize charFile = .error e) ↔
      decodeRecords scanned = [] ∨ charFile = none ∨
      ∃ w, charFile = some w ∧ (writeChars w (decodeRecords scanned)).2 = true) ∧
    ((∃ hex, some hex ∈ scanned) →
      (∀ hex, some hex ∈ scanned → strconv.ParseInt hex 16 32 = none) →
      extractFontCharsFallible scanned cacheSize charFile = .error .noCharsExtracted) ∧
    (∀ pre post bad, scanned = pre ++ some bad :: post →
      strconv.ParseInt bad 16 32 = none → decodeRecords (pre ++ post) ≠ [] →
      extractFontCharsFallible scanned cacheSize charFile =
        extractFontCharsFallible (pre ++ post) cacheSize charFile ∧
      ∀ w, charFile = some w → (writeChars w (decodeRecords (pre ++ post))).2 = false →
        extractFontCharsFallible scanned cacheSize charFile =
          .ok ⟨decodeRecords (pre ++ post),
            (writeChars w (decodeRecords (pre ++ post))).1.written⟩) := by
  refine ⟨?_, ?_, ?_⟩
  · rw [extractFontCharsFallible_eq]
    by_cases h0 : (scanned.filter Option.isSome).length = 0
    · rw [if_pos h0]
      exact ⟨fun _ => Or.inl (decodeRecords_eq_nil_of_no_match scanned h0), fun _ => ⟨_, rfl⟩⟩
    · rw [if_neg h0]
      by_cases hnil : decodeRecords scanned = []
      · rw [if_pos hnil]
        exact ⟨fun _ => Or.inl hnil, fun _ => ⟨_, rfl⟩⟩
      · rw [if_neg hnil]
        cases charFile with
        | none => exact ⟨fun _ => Or.inr (Or.inl rfl), fun _ => ⟨_, rfl⟩⟩
        | some w =>
          by_cases hw : (writeChars w (decodeRecords scanned)).2 = true
          · simp only [if_pos hw]
            exact ⟨fun _ => Or.inr (Or.inr ⟨w, rfl, hw⟩), fun _ => ⟨_, rfl⟩⟩
          · simp only [if_neg hw]
            constructor
            · rintro ⟨e, he⟩
              cases he
            · rintro (h | h | ⟨w2, hw2, hfail⟩)
              · exact absurd h hnil
              · cases h
              · cases hw2
                exact absurd hfail hw
  · rintro ⟨hex, hm⟩ hall
    rw [extractFontCharsFallible_eq, if_neg (filter_isSome_ne_zero scanned hex hm),
      if_pos (decodeRecords_eq_nil_of_unparsable scanned hall)]
  · rintro pre post bad rfl hbad hnil
    have hd := decodeRecords_skip pre post bad hbad
    have h0 : ((pre ++ post).filter Option.isSome).length ≠ 0 :=
      fun h => hnil (decodeRecords_eq_nil_of_no_match _ h)
    have hleft : extractFontCharsFallible (pre ++ some bad :: post) cacheSize charFile =
        extractFontCharsFallible (pre ++ post) cacheSize charFile := by
      rw [extractFontCharsFallible_eq, extractFontCharsFallible_eq, hd, if_neg hnil,
        if_neg (filter_isSome_ne_zero _ bad (by simp)), if_neg h0]
    refine ⟨hleft, ?_⟩
    rintro w rfl hw
    rw [hleft, extractFontCharsFallible_eq, if_neg h0, if_neg hnil]
    simp only [hw, Bool.false_eq_true, if_false]

/-- Witness of C10 (amended): two records that do not parse give the
empty-result error even on a file that cannot be created; an unparsable record
between two that parse is skipped; no record at all gives the error of line
252. -/
theorem extraction_error_cases_witness :
    extractFontCharsFallible [some "FFFFFFFF", none, some "80000000"] 1000 none =
      .error .noCharsExtracted ∧
    extractFontCharsFallible [some "4E00", some "FFFFFFFF", some "4E8C"] 1000
        (some ⟨[], none⟩) =
      extractFontCharsFallible ([some "4E00"] ++ [some "4E8C"]) 1000 (some ⟨[], none⟩) ∧
    extractFontCharsFallible [some "4E00", some "FFFFFFFF", some "4E8C"] 1000
        (some ⟨[], none⟩) = .ok ⟨["一", "二"], ["一\n", "二\n"]⟩ ∧
    extractFontCharsFallible [none, none] 1000 (some ⟨[], none⟩) = .error .noGlyphMappings :=
  ⟨(extraction_error_cases [some "FFFFFFFF", none, some "80000000"] 1000 none).2.1
      ⟨"FFFFFFFF", by decide⟩
      (by
        intro hex h
        simp only [List.mem_cons, Option.some.injEq, List.mem_singleton, List.mem_nil_iff,
          or_false] at h
        rcases h with rfl | h | rfl
        · decide
        · cases h
        · decide),
    ((extraction_error_cases [some "4E00", some "FFFFFFFF", some "4E8C"] 1000
        (some ⟨[], none⟩)).2.2 [some "4E00"] [some "4E8C"] "FFFFFFFF" (by decide) (by decide)
        (by decide)).1,
    by decide, by decide⟩

/-! ## The embedding with failing writers agrees with the infallible one -/

theorem Fprintln_unbounded (w : Writer) (line : String) (h : w.remaining = none) :
    Fprintln w line = (⟨w.written ++ [line], none⟩, false) := by
  obtain ⟨wr, rem⟩ := w
  simp only at h
  subst h
  rfl

theorem writeLinesFallible_unbounded (w : Writer) (lines : List String) (h : w.remaining = none) :
    writeLinesFallible w lines = (⟨w.written ++ lines, none⟩, false) := by
  induction lines generalizing w with
  | nil =>
    obtain ⟨wr, rem⟩ := w
    simp only at h
    subst h
    simp [writeLinesFallible]
  | cons l ls ih =>
    unfold writeLinesFallible
    rw [Fprintln_unbounded w l h]
    simp only [Bool.false_eq_true, if_false]
    rw [ih _ rfl]
    simp

theorem flushOutputFallible_unbounded (cs : Int) (s : WriterState) (h : s.Unbounded) :
    (flushOutputFallible cs s).Unbounded ∧
    (flushOutputFallible cs s).toPure = flushOutput cs s.toPure := by
  obtain ⟨out, mis, oc, mc, occ, mcc, pl, t, v, m, ih, hf, hh⟩ := s
  obtain ⟨h1, h2⟩ := h
  simp only at h1 h2
  unfold flushOutputFallible flushOutput
  by_cases hc : cs ≤ (occ : Int)
  · simp [WriterState.toPure, WriterState.Unbounded, hc, writeLinesFallible_unbounded out oc h1,
      writeLines_eq, h2]
  · simp [WriterState.toPure, WriterState.Unbounded, hc, h1, h2]

theorem flushMissingFallible_unbounded (cs : Int) (s : WriterState) (h : s.Unbounded) :
    (flushMissingFallible cs s).Unbounded ∧
    (flushMissingFallible cs s).toPure = flushMissing cs s.toPure := by
  obtain ⟨out, mis, oc, mc, occ, mcc, pl, t, v, m, ih, hf, hh⟩ := s
  obtain ⟨h1, h2⟩ := h
  simp only at h1 h2
  unfold flushMissingFallible flushMissing
  by_cases hc : cs ≤ (mcc : Int)
  · simp [WriterState.toPure, WriterState.Unbounded, hc, writeLinesFallible_unbounded mis mc h2,
      writeLines_eq, h1]
  · simp [WriterState.toPure, WriterState.Unbounded, hc, h1, h2]

theorem classifyLineFallible_unbounded (vm : String → Bool) (cs : Int) (s : WriterState)
    (line t : String) (h : s.Unbounded) :
    ∃ s1, classifyLineFallible vm cs s line t = .ok s1 ∧ s1.Unbounded ∧
      s1.toPure = classifyLine vm cs s.toPure line t := by
  have hbody : ∀ s0 : WriterState, s0.Unbounded →
      ∃ s1,
        (if t = "" ∨ strings.HasPrefix t "#" = true then
          Except.ok (flushOutputFallible cs (pushOutputFallible s0 line))
        else if t = "---" ∨ t = "..." then
          Except.ok (flushOutputFallible cs (pushOutputFallible s0 line))
        else
          match strings.Fields line with
          | [] => Except.ok s0
          | char :: _ =>
            Except.ok (flushMissingFallible cs (flushOutputFallible cs
              (if vm char = true then
                { pushOutputFallible { s0 with totalDictLines := s0.totalDictLines + 1 } line with
                  validLines := s0.validLines + 1 }
              else
                { pushMissingFallible { s0 with totalDictLines := s0.totalDictLines + 1 } char with
                  missingLines := s0.missingLines + 1 })))) =
          (Except.ok s1 : Except WriterState WriterState) ∧ s1.Unbounded ∧
        s1.toPure =
          (if t = "" ∨ strings.HasPrefix t "#" = true then
            flushOutput cs (pushOutput s0.toPure line)
          else if t = "---" ∨ t = "..." then
            flushOutput cs (pushOutput s0.toPure line)
          else
            match strings.Fields line with
            | [] => s0.toPure
            | char :: _ =>
              flushMissing cs (flushOutput cs
                (if vm char = true then
                  { pushOutput { s0.toPure with totalDictLines := s0.toPure.totalDictLines + 1 }
                      line with validLines := s0.toPure.validLines + 1 }
                else
                  { pushMissing { s0.toPure with totalDictLines := s0.toPure.totalDictLines + 1 }
                      char with missingLines := s0.toPure.missingLines + 1 }))) := by
    intro s0 h0
    have hpush : (pushOutputFallible s0 line).Unbounded := h0
    by_cases c1 : t = "" ∨ strings.HasPrefix t "#" = true
    · rw [if_pos c1, if_pos c1]
      exact ⟨_, rfl, (flushOutputFallible_unbounded cs _ hpush).1,
        (flushOutputFallible_unbounded cs _ hpush).2⟩
    · rw [if_neg c1, if_neg c1]
      by_cases c2 : t = "---" ∨ t = "..."
      · rw [if_pos c2, if_pos c2]
        exact ⟨_, rfl, (flushOutputFallible_unbounded cs _ hpush).1,
          (flushOutputFallible_unbounded cs _ hpush).2⟩
      · rw [if_neg c2, if_neg c2]
        cases hfields : strings.Fields line with
        | nil => exact ⟨_, rfl, h0, rfl⟩
        | cons char rest =>
          simp only
          by_cases hv : vm char = true
          · simp only [if_pos hv]
            have hu : WriterState.Unbounded
                { pushOutputFallible { s0 with totalDictLines := s0.totalDictLines + 1 } line with
                  validLines := s0.validLines + 1 } := h0
            have f1 := flushOutputFallible_unbounded cs _ hu
            have f2 := flushMissingFallible_unbounded cs _ f1.1
            refine ⟨_, rfl, f2.1, ?_⟩
            rw [f2.2, f1.2]
            rfl
          · simp only [if_neg hv]
            have hu : WriterState.Unbounded
                { pushMissingFallible { s0 with totalDictLines := s0.totalDictLines + 1 } char with
                  missingLines := s0.missingLines + 1 } := h0
            have f1 := flushOutputFallible_unbounded cs _ hu
            have f2 := flushMissingFallible_unbounded cs _ f1.1
            refine ⟨_, rfl, f2.1, ?_⟩
            rw [f2.2, f1.2]
            rfl
  unfold classifyLineFallible classifyLine
  by_cases hsyn : s.headerFound = true ∧ s.inHeader = false ∧ s.headerHandled = false
  · have hsynP : s.toPure.headerFound = true ∧ s.toPure.inHeader = false ∧
        s.toPure.headerHandled = false := hsyn
    simp only [if_pos hsyn, if_pos hsynP, Fprintln_unbounded _ _ h.1, Bool.false_eq_true,
      if_false]
    exact hbody _ ⟨rfl, h.2⟩
  · have hsynP : ¬(s.toPure.headerFound = true ∧ s.toPure.inHeader = false ∧
        s.toPure.headerHandled = false) := hsyn
    simp only [if_neg hsyn, if_neg hsynP]
    exact hbody s h

theorem processLineFallible_unbounded (vm : String → Bool) (cs : Int) (s : WriterState)
    (line : String) (h : s.Unbounded) :
    ∃ s1, processLineFallible vm cs s line = .ok s1 ∧ s1.Unbounded ∧
      s1.toPure = processLine vm cs s.toPure line := by
  have hu : WriterState.Unbounded { s with processedLines := s.processedLines + 1 } := h
  have hc := classifyLineFallible_unbounded vm cs { s with processedLines := s.processedLines + 1 }
    line (strings.TrimSpace line) hu
  obtain ⟨out, mis, oc, mc, occ, mcc, pl, t, v, m, ih, hf, hh⟩ := s
  obtain ⟨h1, h2⟩ := h
  simp only at h1 h2
  unfold processLineFallible processLine
  cases hh
  · cases ih
    · by_cases hfirst : pl + 1 = 1 ∧ strings.TrimSpace line = "---"
      · simp [WriterState.toPure, WriterState.Unbounded, hfirst, Fprintln_unbounded out line h1,
          h2]
      · simp only [WriterState.toPure, if_true, if_neg hfirst]
        exact hc
    · by_cases hclose : strings.TrimSpace line = "..."
      · simp [WriterState.toPure, WriterState.Unbounded, hclose,
          Fprintln_unbounded out line h1, h2]
      · simp [WriterState.toPure, WriterState.Unbounded, hclose,
          Fprintln_unbounded out line h1, h2]
  · simp only [WriterState.toPure, Bool.true_eq_false, if_false]
    exact hc

theorem runLoopFallible_unbounded (vm : String → Bool) (cs : Int) (lines : List String)
    (s : WriterState) (h : s.Unbounded) :
    ∃ s1, runLoopFallible vm cs s lines = .ok s1 ∧ s1.Unbounded ∧
      s1.toPure = lines.foldl (processLine vm cs) s.toPure := by
  induction lines generalizing s with
  | nil => exact ⟨s, rfl, h, rfl⟩
  | cons l ls ih =>
    obtain ⟨s1, e1, u1, p1⟩ := processLineFallible_unbounded vm cs s l h
    obtain ⟨s2, e2, u2, p2⟩ := ih s1 u1
    refine ⟨s2, ?_, u2, ?_⟩
    · unfold runLoopFallible
      rw [e1]
      exact e2
    · rw [p2, p1, List.foldl_cons]

theorem finalFlushFallible_unbounded (s : WriterState) (h : s.Unbounded) :
    (finalFlushFallible s).toPure = finalFlush s.toPure := by
  obtain ⟨out, mis, oc, mc, occ, mcc, pl, t, v, m, ih, hf, hh⟩ := s
  obtain ⟨h1, h2⟩ := h
  simp only at h1 h2
  cases oc <;> cases mc <;>
    simp [finalFlushFallible, finalFlush, WriterState.toPure, writeLinesFallible_unbounded _ _ h1,
      writeLinesFallible_unbounded _ _ h2, writeLines_eq]

/-- On files that accept every write, `filterDictFallible` returns `nil` and leaves
in the files and counters what the infallible embedding `filterDict`
computes. -/
theorem filterDictFallible_unbounded (lines vc : List String) (cs : Int) :
    ∃ s, filterDictFallible lines vc cs ⟨[], none⟩ ⟨[], none⟩ = .ok s ∧
      s.toPure = filterDict lines vc cs := by
  obtain ⟨s1, e1, u1, p1⟩ := runLoopFallible_unbounded (buildValidMap vc) cs lines
    (WriterState.init ⟨[], none⟩ ⟨[], none⟩) ⟨rfl, rfl⟩
  refine ⟨finalFlushFallible s1, ?_, ?_⟩
  · unfold filterDictFallible
    rw [e1]
  · rw [finalFlushFallible_unbounded s1 u1, p1]
    rfl

/-! ## The caches stay below `cacheSize` -/

theorem flushOutput_pushOutput (cs : Int) (s : FilterState) (line : String)
    (h : s.Bounded cs) :
    flushOutput cs (pushOutput s line) =
      if (s.outputCache.length : Int) + 1 = cs then
        { s with outputFileHandle := s.outputFileHandle ++ (s.outputCache ++ [line]),
                 outputCache := [], outputCacheCount := 0 }
      else pushOutput s line := by
  obtain ⟨out, mis, oc, mc, occ, mcc, pl, t, v, m, ih, hf, hh⟩ := s
  obtain ⟨h1, h2, h3, h4⟩ := h
  simp only at h1 h2 h3 h4
  subst h1
  unfold flushOutput pushOutput
  simp only [writeLines_eq]
  by_cases hc : (oc.length : Int) + 1 = cs
  · have hle : cs ≤ ((oc.length + 1 : Nat) : Int) := by push_cast; omega
    rw [if_pos hle, if_pos hc]
  · have hle : ¬ cs ≤ ((oc.length + 1 : Nat) : Int) := by push_cast; omega
    rw [if_neg hle, if_neg hc]

theorem flushMissing_pushMissing (cs : Int) (s : FilterState) (char : String)
    (h : s.Bounded cs) :
    flushMissing cs (pushMissing s char) =
      if (s.missingCache.length : Int) + 1 = cs then
        { s with missingFile := s.missingFile ++ (s.missingCache ++ [char]),
                 missingCache := [], missingCacheCount := 0 }
      else pushMissing s char := by
  obtain ⟨out, mis, oc, mc, occ, mcc, pl, t, v, m, ih, hf, hh⟩ := s
  obtain ⟨h1, h2, h3, h4⟩ := h
  simp only at h1 h2 h3 h4
  subst h2
  unfold flushMissing pushMissing
  simp only [writeLines_eq]
  by_cases hc : (mc.length : Int) + 1 = cs
  · have hle : cs ≤ ((mc.length + 1 : Nat) : Int) := by push_cast; omega
    rw [if_pos hle, if_pos hc]
  · have hle : ¬ cs ≤ ((mc.length + 1 : Nat) : Int) := by push_cast; omega
    rw [if_neg hle, if_neg hc]

theorem bounded_flushOutput_pushOutput (cs : Int) (hcs : 0 < cs) (s : FilterState)
    (line : String) (h : s.Bounded cs) : (flushOutput cs (pushOutput s line)).Bounded cs := by
  rw [flushOutput_pushOutput cs s line h]
  obtain ⟨h1, h2, h3, h4⟩ := h
  by_cases hc : (s.outputCache.length : Int) + 1 = cs
  · rw [if_pos hc]
    exact ⟨rfl, h2, by simpa using hcs, h4⟩
  · rw [if_neg hc]
    refine ⟨?_, h2, ?_, h4⟩
    · simp [pushOutput, h1]
    · simp only [pushOutput, List.length_append, List.length_singleton]
      push_cast
      omega

theorem bounded_flushMissing_pushMissing (cs : Int) (hcs : 0 < cs) (s : FilterState)
    (char : String) (h : s.Bounded cs) : (flushMissing cs (pushMissing s char)).Bounded cs := by
  rw [flushMissing_pushMissing cs s char h]
  obtain ⟨h1, h2, h3, h4⟩ := h
  by_cases hc : (s.missingCache.length : Int) + 1 = cs
  · rw [if_pos hc]
    exact ⟨h1, rfl, h3, by simpa using hcs⟩
  · rw [if_neg hc]
    refine ⟨h1, ?_, h3, ?_⟩
    · simp [pushMissing, h2]
    · simp only [pushMissing, List.length_append, List.length_singleton]
      push_cast
      omega

theorem flushOutput_of_bounded (cs : Int) (s : FilterState) (h : s.Bounded cs) :
    flushOutput cs s = s := by
  unfold flushOutput
  rw [if_neg]
  rw [h.1]
  exact not_le.2 h.2.2.1

theorem flushMissing_of_bounded (cs : Int) (s : FilterState) (h : s.Bounded cs) :
    flushMissing cs s = s := by
  unfold flushMissing
  rw [if_neg]
  rw [h.2.1]
  exact not_le.2 h.2.2.2

theorem flushOutput_pushMissing (cs : Int) (s : FilterState) (char : String)
    (h : s.Bounded cs) : flushOutput cs (pushMissing s char) = pushMissing s char := by
  unfold flushOutput
  rw [if_neg]
  have h1 : (pushMissing s char).outputCacheCount = s.outputCache.length := h.1
  rw [h1]
  exact not_le.2 h.2.2.1

theorem classifyLine_bounded (vm : String → Bool) (cs : Int) (hcs : 0 < cs) (s : FilterState)
    (line t : String) (h : s.Bounded cs) : (classifyLine vm cs s line t).Bounded cs := by
  have hsyn : ∀ s1 : FilterState, s1.Bounded cs →
      (if s1.headerFound = true ∧ s1.inHeader = false ∧ s1.headerHandled = false then
        { s1 with outputFileHandle := s1.outputFileHandle ++ ["..."], headerHandled := true }
       else s1).Bounded cs := by
    intro s1 h1
    split
    · exact h1
    · exact h1
  unfold classifyLine
  have hb := hsyn s h
  generalize (if s.headerFound = true ∧ s.inHeader = false ∧ s.headerHandled = false then
        { s with outputFileHandle := s.outputFileHandle ++ ["..."], headerHandled := true }
       else s) = s1 at hb
  simp only
  split
  · exact bounded_flushOutput_pushOutput cs hcs s1 line hb
  · split
    · exact bounded_flushOutput_pushOutput cs hcs s1 line hb
    · split
      · exact hb
      · split
        · rename_i char _ _ _
          have hb2 : FilterState.Bounded cs
              { s1 with totalDictLines := s1.totalDictLines + 1,
                        validLines := s1.validLines + 1 } := hb
          have hb3 := bounded_flushOutput_pushOutput cs hcs _ line hb2
          change FilterState.Bounded cs (flushMissing cs (flushOutput cs (pushOutput
            { s1 with totalDictLines := s1.totalDictLines + 1,
                      validLines := s1.validLines + 1 } line)))
          rw [flushMissing_of_bounded cs _ hb3]
          exact hb3
        · rename_i char _ _ _
          have hb2 : FilterState.Bounded cs
              { s1 with totalDictLines := s1.totalDictLines + 1,
                        missingLines := s1.missingLines + 1 } := hb
          have hb3 := bounded_flushMissing_pushMissing cs hcs _ char hb2
          have hcomm := flushOutput_pushMissing cs _ char hb2
          change FilterState.Bounded cs (flushMissing cs (flushOutput cs (pushMissing
            { s1 with totalDictLines := s1.totalDictLines + 1,
                      missingLines := s1.missingLines + 1 } char)))
          rw [hcomm]
          exact hb3

theorem processLine_bounded (vm : String → Bool) (cs : Int) (hcs : 0 < cs) (s : FilterState)
    (line : String) (h : s.Bounded cs) : (processLine vm cs s line).Bounded cs := by
  have hb : FilterState.Bounded cs { s with processedLines := s.processedLines + 1 } := h
  unfold processLine
  simp only
  split
  · split
    · split
      · exact h
      · exact classifyLine_bounded vm cs hcs _ line _ hb
    · split
      · exact h
      · exact h
  · exact classifyLine_bounded vm cs hcs _ line _ hb

theorem runLoop_bounded (vm : String → Bool) (cs : Int) (hcs : 0 < cs) (lines : List String) :
    (runLoop vm cs lines).Bounded cs := by
  unfold runLoop
  have hinit : FilterState.init.Bounded cs := ⟨rfl, rfl, by simpa using hcs, by simpa using hcs⟩
  generalize FilterState.init = s at hinit
  induction lines generalizing s with
  | nil => exact hinit
  | cons l ls ih => exact ih _ (processLine_bounded vm cs hcs s l hinit)

/-! ## Further facts about the front-matter block and the body rules -/

theorem all_no_close_of_forall (ls : List String) (h : ∀ l ∈ ls, strings.TrimSpace l ≠ "...") :
    ls.all (fun l => decide (strings.TrimSpace l ≠ "...")) = true := by
  rw [List.all_eq_true]
  intro l hl
  exact decide_eq_true (h l hl)

theorem filter_length_add_not (p : String → Bool) (l : List String) :
    (l.filter p).length + (l.filter (fun x => !p x)).length = l.length := by
  induction l with
  | nil => rfl
  | cons a as ih =>
    by_cases hp : p a = true
    · simp [List.filter_cons, hp]
      omega
    · simp [List.filter_cons, hp]
      omega

theorem reports_eq_not_keeps (vc : List String) : reports vc = fun l => !keeps vc l := by
  funext l
  simp [reports, keeps]

theorem closeIndex_take_append (l extra : List String) :
    closeIndex l ≤ closeIndex (l.take (closeIndex l) ++ extra) := by
  induction l with
  | nil => simp [closeIndex]
  | cons a as ih =>
    by_cases hc : strings.TrimSpace a = "..."
    · simp [closeIndex, hc]
    · simp [closeIndex, hc, ih]

theorem frontMatterLen_take_append (input extra : List String) :
    frontMatterLen input ≤ frontMatterLen (input.take (frontMatterLen input) ++ extra) := by
  cases input with
  | nil => simp [frontMatterLen]
  | cons first rest =>
    by_cases hf : strings.TrimSpace first = "---"
    · simp [frontMatterLen, hf, closeIndex_take_append]
    · simp [frontMatterLen, hf]

theorem refilter_kept (vc block kept : List String) (m : Nat)
    (hm : block.length ≤ m) (hk : ∀ x ∈ kept, keeps vc x = true) :
    (block ++ kept).take m ++ ((block ++ kept).drop m).filter (keeps vc) = block ++ kept ∧
    ((block ++ kept).drop m).filter (reports vc) = [] := by
  have hall : ∀ x ∈ (block ++ kept).drop m, keeps vc x = true := by
    intro x hx
    rw [List.drop_append_eq_append_drop, List.drop_eq_nil_of_le hm, List.nil_append] at hx
    exact hk x (List.mem_of_mem_drop hx)
  constructor
  · rw [List.filter_eq_self.2 hall, List.take_append_drop]
  · rw [List.filter_eq_nil_iff]
    intro x hx
    simp [reports_eq_not_keeps, hall x hx]

theorem frontMatterLen_eq_zero (input : List String)
    (h : ∀ first ∈ input.head?, strings.TrimSpace first ≠ "---") : frontMatterLen input = 0 := by
  cases input with
  | nil => rfl
  | cons first rest =>
    have hf : strings.TrimSpace first ≠ "---" := h first (by simp)
    simp [frontMatterLen, hf]

theorem unbuffered_flags_of_no_open (vc pre : List String)
    (h : ∀ first ∈ pre.head?, strings.TrimSpace first ≠ "---") :
    (pre.foldl (processLineUnbuffered (buildValidMap vc)) DirectState.init).inHeader = false ∧
    (pre.foldl (processLineUnbuffered (buildValidMap vc)) DirectState.init).headerFound = false ∧
    (pre.foldl (processLineUnbuffered (buildValidMap vc)) DirectState.init).headerHandled = false := by
  cases pre with
  | nil => exact ⟨rfl, rfl, rfl⟩
  | cons first rest =>
    have hf : strings.TrimSpace first ≠ "---" := h first (by simp)
    rw [List.foldl_cons,
      processLineUnbuffered_route vc _ first rfl (Or.inr ⟨rfl, Or.inr hf⟩), run_body]
    · exact ⟨rfl, rfl, rfl⟩
    · exact ⟨rfl, Or.inr ⟨rfl, Nat.succ_ne_zero _⟩⟩

theorem decodeRecords_length_one (scanned : List (Option String)) :
    ∀ char ∈ decodeRecords scanned, char.length = 1 := by
  intro char hchar
  unfold decodeRecords at hchar
  rw [List.mem_filterMap] at hchar
  obtain ⟨m, _, hm⟩ := hchar
  cases m with
  | none => simp at hm
  | some hex =>
    cases hp : strconv.ParseInt hex 16 32 with
    | none => simp [hp] at hm
    | some code =>
      simp [hp] at hm
      rw [← hm]
      exact runeToString_length code

/-! ## Further properties of `filterDict` -/

/-- C11 (defect of the code): a failing write inside `writeLines` does not make
`filterDict` fail.  With an output file that refuses every write, the run on
the single valid entry `字 x` returns `nil` although the final flush could not
write the line; the same holds for a threshold flush (`cacheSize = 1`) and for
the missing report.  Only the direct writes of the header block return their
error. -/
theorem flush_write_failure_returns_nil :
    returnsNil (filterDictFallible ["字 x"] ["字"] 1000 ⟨[], some 0⟩ ⟨[], none⟩) = true ∧
    outputWritten (filterDictFallible ["字 x"] ["字"] 1000 ⟨[], some 0⟩ ⟨[], none⟩) = [] ∧
    (writeLinesFallible ⟨[], some 0⟩ ["字 x"]).2 = true ∧
    returnsNil (filterDictFallible ["字 x", "字 y"] ["字"] 1 ⟨[], some 1⟩ ⟨[], none⟩) = true ∧
    outputWritten (filterDictFallible ["字 x", "字 y"] ["字"] 1 ⟨[], some 1⟩ ⟨[], none⟩) = ["字 x"] ∧
    returnsNil (filterDictFallible ["漢 x"] ["字"] 1000 ⟨[], none⟩ ⟨[], some 0⟩) = true ∧
    missingWritten (filterDictFallible ["漢 x"] ["字"] 1000 ⟨[], none⟩ ⟨[], some 0⟩) = [] ∧
    returnsNil (filterDictFallible ["---", "a: 1"] ["字"] 1000 ⟨[], some 0⟩ ⟨[], none⟩) = false := by
  decide

/-- C12: the filtered output, the missing report and the three counters of
`filterDict` are determined by the input lines and the character set: two runs
on the same lines and the same set agree on all five, even when their
`cacheSize` differs.  Every run starts from `FilterState.init`, the header
latches being local variables of `filterDict`. -/
theorem filter_deterministic (lines vc : List String) (cacheSize cacheSize2 : Int) :
    (filterDict lines vc cacheSize).outputFileHandle =
      (filterDict lines vc cacheSize2).outputFileHandle ∧
    (filterDict lines vc cacheSize).missingFile = (filterDict lines vc cacheSize2).missingFile ∧
    (filterDict lines vc cacheSize).totalDictLines =
      (filterDict lines vc cacheSize2).totalDictLines ∧
    (filterDict lines vc cacheSize).validLines = (filterDict lines vc cacheSize2).validLines ∧
    (filterDict lines vc cacheSize).missingLines =
      (filterDict lines vc cacheSize2).missingLines := by
  obtain ⟨a1, a2, a3, a4, a5⟩ := filterDict_unbuffered lines vc cacheSize
  obtain ⟨b1, b2, b3, b4, b5⟩ := filterDict_unbuffered lines vc cacheSize2
  exact ⟨a1.trans b1.symm, a2.trans b2.symm, a3.trans b3.symm, a4.trans b4.symm,
    a5.trans b5.symm⟩

/-- C13: when the first line does not trim to `---`, the three header latches
are false after every prefix of the input, and the whole input is filtered by
the body rules: the output is the input lines that are structural (so every
later `---` or `...` line) or have their key in the set, the missing report is
the keys of the other lines, and `totalDictLines` counts every line of the
file that is not structural. -/
theorem front_matter_only_on_line_one (input vc : List String) (cacheSize : Int)
    (h : ∀ first ∈ input.head?, strings.TrimSpace first ≠ "---") :
    (∀ pre, pre <+: input →
      (runLoop (buildValidMap vc) cacheSize pre).inHeader = false ∧
      (runLoop (buildValidMap vc) cacheSize pre).headerFound = false ∧
      (runLoop (buildValidMap vc) cacheSize pre).headerHandled = false) ∧
    (filterDict input vc cacheSize).outputFileHandle = input.filter (keeps vc) ∧
    (filterDict input vc cacheSize).missingFile = (input.filter (reports vc)).map firstField ∧
    (filterDict input vc cacheSize).totalDictLines =
      (input.filter (fun l => !isStructural l)).length := by
  refine ⟨?_, ?_⟩
  · intro pre hpre
    have hhead : ∀ first ∈ pre.head?, strings.TrimSpace first ≠ "---" := by
      intro first hfirst
      apply h first
      obtain ⟨t, rfl⟩ := hpre
      cases pre with
      | nil => simp at hfirst
      | cons a as => simpa using hfirst
    have hsim := (foldl_processLine_sim (buildValidMap vc) cacheSize pre FilterState.init
      init_inv).2
    have hflags := unbuffered_flags_of_no_open vc pre hhead
    have hinit : FilterState.init.unbuffered = DirectState.init := rfl
    rw [hinit] at hsim
    rw [← hsim] at hflags
    exact hflags
  · obtain ⟨a1, a2, a3, _, _⟩ := filterDict_eq input vc cacheSize
    rw [frontMatterLen_eq_zero input h] at a1 a2 a3
    exact ⟨by simpa using a1, by simpa using a2, by simpa using a3⟩

/-- Witness of C13: a comment on line 1, then `---`, an entry, `...` and an
entry; the entry between the delimiters is filtered like any other. -/
theorem front_matter_only_on_line_one_witness :
    (∀ first ∈ ["# comment", "---", "漢 x", "...", "字 y"].head?,
      strings.TrimSpace first ≠ "---") ∧
    ((∀ pre, pre <+: ["# comment", "---", "漢 x", "...", "字 y"] →
      (runLoop (buildValidMap ["字"]) 1000 pre).inHeader = false ∧
      (runLoop (buildValidMap ["字"]) 1000 pre).headerFound = false ∧
      (runLoop (buildValidMap ["字"]) 1000 pre).headerHandled = false) ∧
     (filterDict ["# comment", "---", "漢 x", "...", "字 y"] ["字"] 1000).outputFileHandle =
       ["# comment", "---", "漢 x", "...", "字 y"].filter (keeps ["字"]) ∧
     (filterDict ["# comment", "---", "漢 x", "...", "字 y"] ["字"] 1000).missingFile =
       (["# comment", "---", "漢 x", "...", "字 y"].filter (reports ["字"])).map firstField ∧
     (filterDict ["# comment", "---", "漢 x", "...", "字 y"] ["字"] 1000).totalDictLines =
       (["# comment", "---", "漢 x", "...", "字 y"].filter (fun l => !isStructural l)).length) ∧
    (filterDict ["# comment", "---", "漢 x", "...", "字 y"] ["字"] 1000).outputFileHandle =
      ["# comment", "---", "...", "字 y"] ∧
    (filterDict ["# comment", "---", "漢 x", "...", "字 y"] ["字"] 1000).missingFile = ["漢"] ∧
    (filterDict ["# comment", "---", "漢 x", "...", "字 y"] ["字"] 1000).totalDictLines = 2 :=
  have h : ∀ first ∈ ["# comment", "---", "漢 x", "...", "字 y"].head?,
      strings.TrimSpace first ≠ "---" := by
    intro first hfirst
    simp only [List.head?_cons, Option.mem_def, Option.some.injEq] at hfirst
    subst hfirst
    decide
  ⟨h, front_matter_only_on_line_one ["# comment", "---", "漢 x", "...", "字 y"] ["字"] 1000 h,
    by decide, by decide, by decide⟩

/-- C14: for every positive `cacheSize`, after the lines processed so far
each cache holds fewer than `cacheSize` lines and each counter is the length of
its cache; appending a line flushes and clears the cache exactly when that
brings its length to `cacheSize`; and the end-of-stream flush writes what the
caches still hold. -/
theorem bounded_buffers (lines vc : List String) (cacheSize : Int) (hcs : 0 < cacheSize) :
    ((runLoop (buildValidMap vc) cacheSize lines).outputCache.length : Int) < cacheSize ∧
    ((runLoop (buildValidMap vc) cacheSize lines).missingCache.length : Int) < cacheSize ∧
    (runLoop (buildValidMap vc) cacheSize lines).outputCacheCount =
      (runLoop (buildValidMap vc) cacheSize lines).outputCache.length ∧
    (runLoop (buildValidMap vc) cacheSize lines).missingCacheCount =
      (runLoop (buildValidMap vc) cacheSize lines).missingCache.length ∧
    (∀ line, flushOutput cacheSize (pushOutput (runLoop (buildValidMap vc) cacheSize lines) line) =
      if ((runLoop (buildValidMap vc) cacheSize lines).outputCache.length : Int) + 1 = cacheSize then
        { runLoop (buildValidMap vc) cacheSize lines with
          outputFileHandle := (runLoop (buildValidMap vc) cacheSize lines).outputFileHandle ++
            ((runLoop (buildValidMap vc) cacheSize lines).outputCache ++ [line]),
          outputCache := [], outputCacheCount := 0 }
      else pushOutput (runLoop (buildValidMap vc) cacheSize lines) line) ∧
    (∀ char, flushMissing cacheSize (pushMissing (runLoop (buildValidMap vc) cacheSize lines) char) =
      if ((runLoop (buildValidMap vc) cacheSize lines).missingCache.length : Int) + 1 = cacheSize then
        { runLoop (buildValidMap vc) cacheSize lines with
          missingFile := (runLoop (buildValidMap vc) cacheSize lines).missingFile ++
            ((runLoop (buildValidMap vc) cacheSize lines).missingCache ++ [char]),
          missingCache := [], missingCacheCount := 0 }
      else pushMissing (runLoop (buildValidMap vc) cacheSize lines) char) ∧
    (filterDict lines vc cacheSize).outputFileHandle =
      (runLoop (buildValidMap vc) cacheSize lines).outputFileHandle ++
        (runLoop (buildValidMap vc) cacheSize lines).outputCache ∧
    (filterDict lines vc cacheSize).missingFile =
      (runLoop (buildValidMap vc) cacheSize lines).missingFile ++
        (runLoop (buildValidMap vc) cacheSize lines).missingCache := by
  have hb := runLoop_bounded (buildValidMap vc) cacheSize hcs lines
  obtain ⟨f1, f2, _⟩ := finalFlush_unbuffered (runLoop (buildValidMap vc) cacheSize lines)
  exact ⟨hb.2.2.1, hb.2.2.2, hb.1, hb.2.1,
    fun line => flushOutput_pushOutput cacheSize _ line hb,
    fun char => flushMissing_pushMissing cacheSize _ char hb, f1, f2⟩

/-- Witness of C14: `cacheSize = 2` and four entries, one of them missing. -/
theorem bounded_buffers_witness :
    (0 : Int) < 2 ∧
    (runLoop (buildValidMap ["字"]) 2 ["字 a", "漢 b", "字 c", "字 d"]).outputCache = ["字 d"] ∧
    (runLoop (buildValidMap ["字"]) 2 ["字 a", "漢 b", "字 c", "字 d"]).outputFileHandle =
      ["字 a", "字 c"] ∧
    (runLoop (buildValidMap ["字"]) 2 ["字 a", "漢 b", "字 c", "字 d"]).missingCache = ["漢"] ∧
    ((runLoop (buildValidMap ["字"]) 2 ["字 a", "漢 b", "字 c", "字 d"]).outputCache.length : Int) < 2 :=
  ⟨by decide, by decide, by decide, by decide,
    (bounded_buffers ["字 a", "漢 b", "字 c", "字 d"] ["字"] 2 (by decide)).1⟩

/-- C15: when line 1 trims to `---` and no later line trims to `...`, every
input line is written verbatim to the filtered output whatever the character
set is, nothing is written to the missing report, and the three counters end
at zero. -/
theorem unclosed_front_matter_swallows (first : String) (rest vc : List String)
    (cacheSize : Int)
    (hopen : strings.TrimSpace first = "---")
    (hnoclose : ∀ l ∈ rest, strings.TrimSpace l ≠ "...") :
    (filterDict (first :: rest) vc cacheSize).outputFileHandle = first :: rest ∧
    (filterDict (first :: rest) vc cacheSize).missingFile = [] ∧
    (filterDict (first :: rest) vc cacheSize).totalDictLines = 0 ∧
    (filterDict (first :: rest) vc cacheSize).validLines = 0 ∧
    (filterDict (first :: rest) vc cacheSize).missingLines = 0 := by
  have hn : frontMatterLen (first :: rest) = (first :: rest).length := by
    simp [frontMatterLen, hopen, closeIndex_of_no_close rest (all_no_close_of_forall rest hnoclose)]
  obtain ⟨a1, a2, a3, a4, a5⟩ := filterDict_eq (first :: rest) vc cacheSize
  rw [hn, List.take_length, List.drop_length] at a1
  rw [hn, List.drop_length] at a2 a3 a4 a5
  exact ⟨by simpa using a1, by simpa using a2, by simpa using a3, by simpa using a4,
    by simpa using a5⟩

/-- Witness of C15: after an unclosed `---`, an entry whose key is missing is
kept like every other line. -/
theorem unclosed_front_matter_swallows_witness :
    (strings.TrimSpace "---" = "---" ∧
      ∀ l ∈ ["a: 1", "字 x", "漢 y"], strings.TrimSpace l ≠ "...") ∧
    ((filterDict ("---" :: ["a: 1", "字 x", "漢 y"]) ["字"] 1000).outputFileHandle =
        "---" :: ["a: 1", "字 x", "漢 y"] ∧
     (filterDict ("---" :: ["a: 1", "字 x", "漢 y"]) ["字"] 1000).missingFile = [] ∧
     (filterDict ("---" :: ["a: 1", "字 x", "漢 y"]) ["字"] 1000).totalDictLines = 0 ∧
     (filterDict ("---" :: ["a: 1", "字 x", "漢 y"]) ["字"] 1000).validLines = 0 ∧
     (filterDict ("---" :: ["a: 1", "字 x", "漢 y"]) ["字"] 1000).missingLines = 0) :=
  ⟨⟨by decide, by decide⟩,
    unclosed_front_matter_swallows "---" ["a: 1", "字 x", "漢 y"] ["字"] 1000 (by decide)
      (by decide)⟩

/-- C16: the number of lines written to the filtered output plus the number
of lines written to the missing report is the number of input lines; and a
line whose trimmed text is not empty has at least one field, so the guard
`len(fields) > 0` drops no line. -/
theorem line_conservation (input vc : List String) (cacheSize : Int) :
    (filterDict input vc cacheSize).outputFileHandle.length +
        (filterDict input vc cacheSize).missingFile.length = input.length ∧
    ∀ line : String, strings.TrimSpace line ≠ "" → strings.Fields line ≠ [] := by
  refine ⟨?_, fun line h => fields_ne_nil line h⟩
  obtain ⟨a1, a2, _⟩ := filterDict_eq input vc cacheSize
  rw [a1, a2, List.length_append, List.length_map, reports_eq_not_keeps, Nat.add_assoc,
    filter_length_add_not, List.length_take, List.length_drop]
  have := frontMatterLen_le input
  omega

/-- C17: the lines written to the filtered output form a sublist of the
input lines: unmodified input lines, in their input order. -/
theorem filtered_output_sublist (input vc : List String) (cacheSize : Int) :
    List.Sublist (filterDict input vc cacheSize).outputFileHandle input := by
  rw [(filterDict_eq input vc cacheSize).1]
  conv => rhs; rw [← List.take_append_drop (frontMatterLen input) input]
  exact List.Sublist.append (List.Sublist.refl _) (List.filter_sublist _)

/-- C18: filtering the filtered output again with the same character set
gives the same filtered output, an empty missing report and
`missingLines = 0`. -/
theorem refiltering_fixed_point (input vc : List String) (cacheSize : Int) :
    (filterDict (filterDict input vc cacheSize).outputFileHandle vc cacheSize).outputFileHandle =
        (filterDict input vc cacheSize).outputFileHandle ∧
    (filterDict (filterDict input vc cacheSize).outputFileHandle vc cacheSize).missingFile = [] ∧
    (filterDict (filterDict input vc cacheSize).outputFileHandle vc cacheSize).missingLines = 0 := by
  have hout := (filterDict_eq input vc cacheSize).1
  obtain ⟨b1, b2, _, _, b5⟩ :=
    filterDict_eq (filterDict input vc cacheSize).outputFileHandle vc cacheSize
  rw [hout] at b1 b2 b5 ⊢
  have hm := frontMatterLen_take_append input
    ((input.drop (frontMatterLen input)).filter (keeps vc))
  have hlen : (input.take (frontMatterLen input)).length ≤
      frontMatterLen (input.take (frontMatterLen input) ++
        (input.drop (frontMatterLen input)).filter (keeps vc)) := by
    rw [List.length_take]
    exact le_trans (Nat.min_le_left _ _) hm
  have hk : ∀ x ∈ (input.drop (frontMatterLen input)).filter (keeps vc), keeps vc x = true :=
    fun x hx => (List.mem_filter.1 hx).2
  obtain ⟨r1, r2⟩ := refilter_kept vc _ _ _ hlen hk
  rw [r1] at b1
  rw [r2] at b2 b5
  exact ⟨b1, by simpa using b2, by simpa using b5⟩

/-- Witness of C18: the first pass removes the first line, which brings a
`---` to line 1 of its output; the second pass returns that output. -/
theorem refiltering_fixed_point_witness :
    (filterDict ["漢 x", "---", "漢 y", "字 z"] ["字"] 1000).outputFileHandle = ["---", "字 z"] ∧
    (filterDict (filterDict ["漢 x", "---", "漢 y", "字 z"] ["字"] 1000).outputFileHandle
      ["字"] 1000).outputFileHandle = ["---", "字 z"] ∧
    (filterDict (filterDict ["漢 x", "---", "漢 y", "字 z"] ["字"] 1000).outputFileHandle
      ["字"] 1000).missingFile = [] :=
  ⟨by decide,
    (by decide : (filterDict ["漢 x", "---", "漢 y", "字 z"] ["字"] 1000).outputFileHandle =
      ["---", "字 z"]) ▸ (refiltering_fixed_point ["漢 x", "---", "漢 y", "字 z"] ["字"] 1000).1,
    (refiltering_fixed_point ["漢 x", "---", "漢 y", "字 z"] ["字"] 1000).2.1⟩

/-- C19: every element of the list `extractFontChars` returns is a string of
one code point; so when `filterDict` runs with that list, a content entry
outside the front matter whose first field has two or more code points adds
nothing to the filtered output and its key to the missing report. -/
theorem multi_character_keys_missing (scanned : List (Option String)) (cacheSize : Int)
    (r : Extracted) (pre post rest : List String) (line key : String)
    (hok : extractFontChars scanned cacheSize = .ok r)
    (hout : inFrontMatter pre line = false)
    (h1 : strings.TrimSpace line ≠ "")
    (h2 : strings.HasPrefix (strings.TrimSpace line) "#" = false)
    (h3 : strings.TrimSpace line ≠ "---") (h4 : strings.TrimSpace line ≠ "...")
    (hkey : strings.Fields line = key :: rest) (hlen : 2 ≤ key.length) :
    (∀ char ∈ r.chars, char.length = 1) ∧
    (filterDict (pre ++ [line]) r.chars cacheSize).outputFileHandle =
      (filterDict pre r.chars cacheSize).outputFileHandle ∧
    (filterDict (pre ++ [line]) r.chars cacheSize).missingFile =
      (filterDict pre r.chars cacheSize).missingFile ++ [key] ∧
    (filterDict (pre ++ [line]) r.chars cacheSize).outputFileHandle <+:
      (filterDict (pre ++ line :: post) r.chars cacheSize).outputFileHandle ∧
    (filterDict (pre ++ [line]) r.chars cacheSize).missingFile <+:
      (filterDict (pre ++ line :: post) r.chars cacheSize).missingFile := by
  have hchars : r.chars = decodeRecords scanned := by
    rw [extractFontChars_eq] at hok
    split at hok
    · cases hok
    · split at hok
      · cases hok
      · cases hok
        rfl
  have hone : ∀ char ∈ r.chars, char.length = 1 := by
    rw [hchars]
    exact decodeRecords_length_one scanned
  have hnot : key ∉ r.chars := by
    intro hmem
    have := hone key hmem
    omega
  have hff : firstField line = key := by simp [firstField, hkey]
  have hs := isStructural_eq_false line h1 h2 h3 h4
  obtain ⟨a1, a2, _, _, _⟩ := filterDict_snoc_outside pre r.chars line cacheSize hout
  have hp := filterDict_extends (pre ++ [line]) post r.chars cacheSize
  rw [List.append_assoc, List.singleton_append] at hp
  refine ⟨hone, ?_, ?_, hp.1, hp.2⟩
  · rw [a1]
    simp [keeps, hs, hff, hnot]
  · rw [a2]
    simp [reports, hs, hff, hnot]

/-- Witness of C19: the font has `一` and `二`, and the phrase entry `一二` is
reported as missing. -/
theorem multi_character_keys_missing_witness :
    extractFontChars [some "4E00", some "4E8C"] 1000 =
      .ok ⟨["一", "二"], ["一\n", "二\n"]⟩ ∧
    2 ≤ "一二".length ∧
    ((∀ char ∈ (⟨["一", "二"], ["一\n", "二\n"]⟩ : Extracted).chars, char.length = 1) ∧
     (filterDict (["一 yi"] ++ ["一二 yi er"]) (⟨["一", "二"], ["一\n", "二\n"]⟩ : Extracted).chars
        1000).outputFileHandle =
       (filterDict ["一 yi"] (⟨["一", "二"], ["一\n", "二\n"]⟩ : Extracted).chars
        1000).outputFileHandle ∧
     (filterDict (["一 yi"] ++ ["一二 yi er"]) (⟨["一", "二"], ["一\n", "二\n"]⟩ : Extracted).chars
        1000).missingFile =
       (filterDict ["一 yi"] (⟨["一", "二"], ["一\n", "二\n"]⟩ : Extracted).chars
        1000).missingFile ++ ["一二"] ∧
     (filterDict (["一 yi"] ++ ["一二 yi er"]) (⟨["一", "二"], ["一\n", "二\n"]⟩ : Extracted).chars
        1000).outputFileHandle <+:
       (filterDict (["一 yi"] ++ "一二 yi er" :: ["二 er"])
        (⟨["一", "二"], ["一\n", "二\n"]⟩ : Extracted).chars 1000).outputFileHandle ∧
     (filterDict (["一 yi"] ++ ["一二 yi er"]) (⟨["一", "二"], ["一\n", "二\n"]⟩ : Extracted).chars
        1000).missingFile <+:
       (filterDict (["一 yi"] ++ "一二 yi er" :: ["二 er"])
        (⟨["一", "二"], ["一\n", "二\n"]⟩ : Extracted).chars 1000).missingFile) ∧
    (filterDict ["一 yi", "一二 yi er", "二 er"] ["一", "二"] 1000).outputFileHandle =
      ["一 yi", "二 er"] ∧
    (filterDict ["一 yi", "一二 yi er", "二 er"] ["一", "二"] 1000).missingFile = ["一二"] :=
  ⟨by decide, by decide,
    multi_character_keys_missing [some "4E00", some "4E8C"] 1000 ⟨["一", "二"], ["一\n", "二\n"]⟩
      ["一 yi"] ["二 er"] ["yi", "er"] "一二 yi er" "一二" (by decide) (by decide) (by decide)
      (by decide) (by decide) (by decide) (by decide) (by decide),
    by decide, by decide⟩

end RimeFilter
